import Mathlib

/-!
Verification development for the Sudoku solver repository
(`sudoku_functions.py` and `sudoku_solver.py`).

The Python program represents the grid as a 9×9 list of lists of strings
(a cell holds a digit string "1".."9", or a non-digit marker such as "-"),
and the candidate mapping as an insertion-ordered dictionary from (row, col)
pairs to lists of digit strings.  We embed the grid as `List (List String)`
and the mapping as an insertion-ordered association list.
-/

namespace Sudoku

/-! ### Definitions: the data model and the operations of the solver,
translated from the source, together with the reference definitions used to
state the claims and the notions of grid well-formedness used in proofs. -/

/-- A grid cell: Python uses strings (digit strings are placed values). -/
abbrev Cell := String

/-- The 9×9 Sudoku matrix, as in the Python code a list of rows. -/
abbrev Grid := List (List Cell)

/-- The candidate mapping `possible_solutions`: an insertion-ordered
association list mirroring the Python dict from squares to candidate lists. -/
abbrev PS := List ((Nat × Nat) × List Cell)

/-- Python's `str.isdigit` restricted to ASCII content: a non-empty string
all of whose characters are decimal digits. -/
def isdigitS (s : String) : Bool :=
  !s.isEmpty && s.toList.all Char.isDigit

/-- The digit strings `[str(x) for x in range(1, 10)]`. -/
def digitsS : List Cell := ["1", "2", "3", "4", "5", "6", "7", "8", "9"]

/-- Read `matrix[i][j]`; out-of-range access yields `""` (the Python code
only reads in-range cells). -/
def getCell (m : Grid) (i j : Nat) : Cell :=
  (m.getD i []).getD j ""

/-- Write `matrix[i][j] = v` (no-op when out of range, as `List.set`). -/
def setCell (m : Grid) (i j : Nat) (v : Cell) : Grid :=
  m.set i ((m.getD i []).set j v)

/-- `find_box(square)`: the three row indices and three column indices of
the 3×3 box containing the square, computed by range comparisons exactly as
in the source. -/
def find_box (square : Nat × Nat) : List Nat × List Nat :=
  let i := square.1
  let j := square.2
  let rows := if i ≤ 2 then [0, 1, 2] else if i ≤ 5 then [3, 4, 5] else [6, 7, 8]
  let cols := if j ≤ 2 then [0, 1, 2] else if j ≤ 5 then [3, 4, 5] else [6, 7, 8]
  (rows, cols)

/-- `find_empty_squares(matrix)`: row-major list of coordinates of cells
whose content is not a digit string. -/
def find_empty_squares (matrix : Grid) : List (Nat × Nat) :=
  (List.range matrix.length).flatMap (fun i =>
    (List.range (matrix.getD i []).length).filterMap (fun j =>
      if isdigitS (getCell matrix i j) then none else some (i, j)))

/-- The candidate list computed for one square: start from `digitsS` and
remove (first occurrence, as Python's guarded `list.remove`) every element
of the square's row, then of its column, then of its box.  The Python loop
mutates each dict entry independently, so the per-square computation is a
pure function of the matrix and the square. -/
def candsFor (m : Grid) (sq : Nat × Nat) : List Cell :=
  let afterRow := (m.getD sq.1 []).foldl (fun c e => c.erase e) digitsS
  let afterCol := (m.map (fun row => row.getD sq.2 "")).foldl (fun c e => c.erase e) afterRow
  let bx := find_box sq
  (bx.1.flatMap (fun x => bx.2.map (fun y => getCell m x y))).foldl
    (fun c e => c.erase e) afterCol

/-- `find_possible_solutions(matrix, empty_squares)`: the candidate mapping,
one entry per listed square in order.  (The Python dict collapses duplicate
squares; all call sites pass duplicate-free lists, and theorems about
arbitrary lists carry a `Nodup` hypothesis.) -/
def find_possible_solutions (m : Grid) (empty_squares : List (Nat × Nat)) : PS :=
  empty_squares.map (fun sq => (sq, candsFor m sq))

/-- Dictionary lookup `possible_solutions[square]` (first matching key). -/
def psLookup (ps : PS) (sq : Nat × Nat) : List Cell :=
  match ps.find? (fun p => p.1 == sq) with
  | some p => p.2
  | none => []

/-- Membership test `square in possible_solutions`. -/
def psHasKey (ps : PS) (sq : Nat × Nat) : Bool :=
  ps.any (fun p => p.1 == sq)

/-- `compare_solutions(possible_solutions, square)`: first candidate of the
square carried by no other unfilled square of its row; else of its column;
else of its box; else `None`. -/
def compare_solutions (ps : PS) (sq : Nat × Nat) : Option Cell :=
  let solutions := psLookup ps sq
  match solutions.find? (fun s =>
      !(ps.any (fun p => p.1 != sq && p.1.1 == sq.1 && p.2.contains s))) with
  | some s => some s
  | none =>
    match solutions.find? (fun s =>
        !(ps.any (fun p => p.1 != sq && p.1.2 == sq.2 && p.2.contains s))) with
    | some s => some s
    | none =>
      let bx := find_box sq
      solutions.find? (fun s =>
        !(bx.1.any (fun x => bx.2.any (fun y =>
          ((x, y) != sq) && psHasKey ps (x, y) && (psLookup ps (x, y)).contains s))))

/-- The `boxes` constant of `check_boxes`. -/
def boxesC : List (List Nat × List Nat) :=
  [([0,1,2],[0,1,2]), ([0,1,2],[3,4,5]), ([0,1,2],[6,7,8]),
   ([3,4,5],[0,1,2]), ([3,4,5],[3,4,5]), ([3,4,5],[6,7,8]),
   ([6,7,8],[0,1,2]), ([6,7,8],[3,4,5]), ([6,7,8],[6,7,8])]

/-- `defaultdict(list)` append: `d[k].append(v)`, keys in insertion order. -/
def dictAppend (d : List (Cell × List Nat)) (k : Cell) (v : Nat) :
    List (Cell × List Nat) :=
  if d.any (fun p => p.1 == k) then
    d.map (fun p => if p.1 == k then (p.1, p.2 ++ [v]) else p)
  else d ++ [(k, [v])]

/-- A confinement result `(solution, row-or-column index, box)`. -/
abbrev BoxResult := Cell × Nat × (List Nat × List Nat)

/-- `check_boxes(possible_solutions)`: for each box, collect for every
candidate digit the row indices and column indices of its occurrences in the
box; digits whose occurrences all share one row (column) yield a row
(column) result. -/
def check_boxes (ps : PS) : List BoxResult × List BoxResult :=
  boxesC.foldl (fun acc box =>
    let cells := box.1.flatMap (fun x => box.2.map (fun y => (x, y)))
    let dicts := cells.foldl (fun (ds : List (Cell × List Nat) × List (Cell × List Nat)) c =>
      if psHasKey ps c then
        (psLookup ps c).foldl
          (fun ds' sol => (dictAppend ds'.1 sol c.1, dictAppend ds'.2 sol c.2)) ds
      else ds) ([], [])
    let rowRes := dicts.1.foldl (fun rr p =>
      if p.2.tail.all (fun z => z == p.2.getD 0 0) then rr ++ [(p.1, p.2.getD 0 0, box)]
      else rr) acc.1
    let colRes := dicts.2.foldl (fun cc p =>
      if p.2.tail.all (fun z => z == p.2.getD 0 0) then cc ++ [(p.1, p.2.getD 0 0, box)]
      else cc) acc.2
    (rowRes, colRes)) ([], [])

/-- Pointwise update of one dict entry (no-op on missing keys, matching the
guarded Python access). -/
def psModify (ps : PS) (sq : Nat × Nat) (f : List Cell → List Cell) : PS :=
  ps.map (fun p => if p.1 == sq then (p.1, f p.2) else p)

/-- `update_possible_solutions(possible_solutions, row_results, col_results)`:
for each row result remove its digit from every mapped cell of that row
outside the originating box's columns; symmetrically for column results. -/
def update_possible_solutions (ps : PS) (rr cr : List BoxResult) : PS :=
  let ps1 := rr.foldl (fun acc res =>
    (List.range 9).foldl (fun acc' j =>
      if res.2.2.2.contains j || !psHasKey acc' (res.2.1, j) then acc'
      else psModify acc' (res.2.1, j) (fun l => l.erase res.1)) acc) ps
  cr.foldl (fun acc res =>
    (List.range 9).foldl (fun acc' i =>
      if res.2.2.1.contains i || !psHasKey acc' (i, res.2.1) then acc'
      else psModify acc' (i, res.2.1) (fun l => l.erase res.1)) acc) ps1

/-- `check_paradox(possible_solutions)`: some square has no candidates. -/
def check_paradox (ps : PS) : Bool :=
  ps.any (fun p => p.2.isEmpty)

/-- `len(min(possible_solutions.values(), key=len))`, the minimum candidate
list length.  Python raises on an empty dict; every call site passes a
non-empty mapping, and we return 0 there. -/
def minLen (ps : PS) : Nat :=
  match ps with
  | [] => 0
  | p :: rest => rest.foldl (fun a q => Nat.min a q.2.length) p.2.length

/-- Step 2 of the loop: for candidate-list lengths 2..9 in order, the first
square (in mapping order) of that length for which `compare_solutions`
returns a value, together with that value. -/
def step2find (ps : PS) : Option ((Nat × Nat) × Cell) :=
  (List.range' 2 8).findSome? (fun len =>
    ps.findSome? (fun p =>
      if p.2.length = len then (compare_solutions ps p.1).map (fun s => (p.1, s))
      else none))

/-- The action one iteration of the shared propagation loop body takes
(the loop body is textually identical in `main` and in
`check_possible_scenarios`, lines 59–101 and 349–398). -/
inductive StepAct : Type
  | place (sq : Nat × Nat) (v : Cell)
  | confine (ps' : PS)
  | search (ps' : PS)
deriving Repr, DecidableEq

/-- One iteration of the propagation loop body, as a function of the
candidate mapping:
1. if the minimum candidate-list length is 1, place the first length-1
   square's single candidate;
2. else place the first square (by length 2..9, then mapping order) forced
   by `compare_solutions`;
3. else run `check_boxes`/`update_possible_solutions`; if the mapping
   changed keep it (restart), else hand the mapping to the search engine. -/
def loopStep (ps : PS) : StepAct :=
  if minLen ps = 1 then
    match ps.find? (fun p => p.2.length == 1) with
    | some p => .place p.1 (p.2.getD 0 "")
    | none => .search ps  -- unreachable: the minimum 1 is attained by some entry
  else
    match step2find ps with
    | some (sq, s) => .place sq s
    | none =>
      let res := check_boxes ps
      let ps' := update_possible_solutions ps res.1 res.2
      if ps' = ps then .search ps' else .confine ps'

/-- Outcome of running the propagation loop to completion: either the grid
is solved (no empty squares remain) or the loop stalled and hands the grid
and candidate mapping to the search engine. -/
inductive PropOut : Type
  | solved (g : Grid)
  | stalled (g : Grid) (ps : PS)
deriving Repr, DecidableEq

/-- The propagation `while empty_squares:` loop, fuelled.  `none` means the
fuel ran out (never happens for sufficient fuel, proved below).  On a
placement the square is filled, removed from the empty list, and the
candidate mapping is recomputed from the grid, exactly as in the source. -/
def propagate : Nat → Grid → List (Nat × Nat) → PS → Option PropOut
  | 0, _, _, _ => none
  | f + 1, m, empties, ps =>
    if empties.isEmpty then some (.solved m)
    else
      match loopStep ps with
      | .place sq v =>
        let m' := setCell m sq.1 sq.2 v
        let e' := empties.erase sq
        propagate f m' e' (find_possible_solutions m' e')
      | .confine ps' => propagate f m empties ps'
      | .search ps' => some (.stalled m ps')

mutual

/-- `check_possible_scenarios(matrix, possible_solutions)`, fuelled.
`pf` is the fuel given to each propagation loop; the second argument bounds
the recursion depth.  Result: `none` = fuel ran out, `some none` = the
Python function returned `None`, `some (some g)` = it returned grid `g`.
The branch square is the first mapping entry attaining the minimum length;
one grid copy is made per candidate of that square. -/
def check_possible_scenarios (pf : Nat) : Nat → Grid → PS → Option (Option Grid)
  | 0, _, _ => none
  | f + 1, m, ps =>
    match ps.find? (fun p => p.2.length == minLen ps) with
    | none => some none  -- unreachable: every call site passes a non-empty mapping
    | some entry =>
      tryCopies pf f
        ((List.range (minLen ps)).map (fun n =>
          setCell m entry.1.1 entry.1.2 (entry.2.getD n "")))

/-- The `for matrix_copy in matrix_copies:` loop of
`check_possible_scenarios`: recompute empties and candidates for the copy,
skip it on an immediate paradox, otherwise run the propagation loop; a
solved copy is returned at once, a stalled copy is resolved by recursion,
and a failed recursion abandons the copy.  Falling off the end returns
Python's implicit `None`. -/
def tryCopies (pf f : Nat) : List Grid → Option (Option Grid)
  | [] => some none
  | c :: rest =>
    let empties := find_empty_squares c
    let ps' := find_possible_solutions c empties
    if check_paradox ps' then tryCopies pf f rest
    else
      match propagate pf c empties ps' with
      | none => none
      | some (.solved g) => some (some g)
      | some (.stalled g ps'') =>
        match check_possible_scenarios pf f g ps'' with
        | none => none
        | some none => tryCopies pf f rest
        | some (some g') => some (some g')

end

/-- The whole solver as driven by `main` (input adaptation and printing
excluded): compute the empty squares and candidates, run the propagation
loop, and on a stall hand over to `check_possible_scenarios`.  `main`
prints the grid (success) when the loop exhausts the empty squares, and
prints the failure message when `check_possible_scenarios` returns `None`. -/
def solveTop (pf cf : Nat) (m : Grid) : Option (Option Grid) :=
  let empties := find_empty_squares m
  let ps := find_possible_solutions m empties
  match propagate pf m empties ps with
  | none => none
  | some (.solved g) => some (some g)
  | some (.stalled g ps') => check_possible_scenarios pf cf g ps'

/-- The list of values in row `i` (the very list the code iterates). -/
def rowCells (m : Grid) (i : Nat) : List Cell := m.getD i []

/-- The list of values in column `j` (as the code reads them). -/
def colCells (m : Grid) (j : Nat) : List Cell := m.map (fun row => row.getD j "")

/-- The list of values in the box of `sq` (in the code's x-major order). -/
def boxCells (m : Grid) (sq : Nat × Nat) : List Cell :=
  (find_box sq).1.flatMap (fun x => (find_box sq).2.map (fun y => getCell m x y))

/-- The candidate set the specification describes: exactly the digits 1–9
not currently appearing in the cell's row, column, or box. -/
def specCandidates (m : Grid) (sq : Nat × Nat) : List Cell :=
  digitsS.filter (fun d =>
    !(rowCells m sq.1).contains d && !(colCells m sq.2).contains d &&
    !(boxCells m sq).contains d)

/-- The integer-division reference definition of the containing box. -/
def box_of_div (sq : Nat × Nat) : List Nat × List Nat :=
  ([3 * (sq.1 / 3), 3 * (sq.1 / 3) + 1, 3 * (sq.1 / 3) + 2],
   [3 * (sq.2 / 3), 3 * (sq.2 / 3) + 1, 3 * (sq.2 / 3) + 2])

/-- A row result `(digit, row, box)` licenses removing digit `d` from cell
`c`: same digit, the cell lies on the named row, and its column is outside
the originating box's columns. -/
def licensesRow (r : BoxResult) (c : Nat × Nat) (d : Cell) : Prop :=
  r.1 = d ∧ r.2.1 = c.1 ∧ c.2 ∉ r.2.2.2

/-- A column result licenses removing `d` from `c`: same digit, the cell
lies on the named column, and its row is outside the box's rows. -/
def licensesCol (r : BoxResult) (c : Nat × Nat) (d : Cell) : Prop :=
  r.1 = d ∧ r.2.1 = c.2 ∧ c.1 ∉ r.2.2.1

/-- The relation "`ps'` was obtained from `ps` by removals every one of
which is licensed by one of the given results": the keys are unchanged,
every entry's candidate list only loses elements, and any digit lost from
the mapping at a cell is attributed to a licensing row or column result. -/
def Shrinks (rr cr : List BoxResult) (ps ps' : PS) : Prop :=
  ps'.map Prod.fst = ps.map Prod.fst ∧
  (∀ c : Nat × Nat, (psLookup ps' c).Sublist (psLookup ps c)) ∧
  ∀ c : Nat × Nat, ∀ d : Cell, d ∈ psLookup ps c → d ∉ psLookup ps' c →
    (∃ r ∈ rr, licensesRow r c d) ∨ (∃ r ∈ cr, licensesCol r c d)

/-- The candidate mapping of the C8 counterexample: in the top-left box the
digit 1 is confined to row 0, and in the middle-left box it is confined to
column 0. -/
def psC8 : PS :=
  [((0, 0), ["1", "2"]), ((0, 1), ["1", "2"]),
   ((3, 0), ["1", "2"]), ((4, 0), ["1", "2"])]

/-- A 9×9 grid (an otherwise-valid grid with the duplicate "1" at (1, 0))
whose first propagation state has cell (0, 0) with zero candidates and cell
(8, 8) with exactly one candidate. -/
def gC5 : Grid :=
 [["-", "2", "3", "4", "5", "6", "7", "8", "9"],
  ["1", "5", "6", "7", "8", "9", "1", "2", "3"],
  ["7", "8", "9", "1", "2", "3", "4", "5", "6"],
  ["2", "3", "4", "5", "6", "7", "8", "9", "1"],
  ["5", "6", "7", "8", "9", "1", "2", "3", "4"],
  ["8", "9", "1", "2", "3", "4", "5", "6", "7"],
  ["3", "4", "5", "6", "7", "8", "9", "1", "2"],
  ["6", "7", "8", "9", "1", "2", "3", "4", "5"],
  ["9", "1", "2", "3", "4", "5", "6", "7", "-"]]

/-- The propagation-loop state the solver computes for `gC5` on its first
iteration. -/
def psC5 : PS := find_possible_solutions gC5 (find_empty_squares gC5)

/-- A 9×9 grid whose first propagation state has a zero-candidate cell
(0, 0) while single-scope elimination still fires at (4, 4). -/
def gC3 : Grid :=
 [["-", "2", "3", "4", "5", "6", "7", "8", "9"],
  ["1", "5", "6", "7", "8", "9", "1", "2", "3"],
  ["7", "8", "9", "1", "2", "3", "4", "5", "6"],
  ["2", "3", "4", "5", "6", "7", "8", "9", "1"],
  ["5", "6", "7", "8", "-", "-", "2", "3", "4"],
  ["8", "9", "1", "2", "3", "4", "5", "6", "7"],
  ["3", "4", "5", "6", "7", "8", "9", "1", "2"],
  ["6", "7", "8", "9", "-", "2", "3", "4", "5"],
  ["9", "1", "2", "3", "4", "5", "6", "7", "8"]]

/-- The propagation-loop state the solver computes for `gC3` on its first
iteration:  `[((0,0), []), ((4,4), ["1","9"]), ((4,5), ["1"]), ((7,4), ["1"])]`. -/
def psC3 : PS := find_possible_solutions gC3 (find_empty_squares gC3)

/-- The 81 coordinates of a 9×9 grid in row-major order. -/
def allPos : List (Nat × Nat) :=
  (List.range 9).flatMap (fun i => (List.range 9).map (fun j => (i, j)))

/-- The grid has exactly 9 rows of exactly 9 cells. -/
def dims9 (m : Grid) : Bool :=
  m.length == 9 && m.all (fun r => r.length == 9)

/-- Number of empty (non-digit) squares. -/
def countEmpty (m : Grid) : Nat := (find_empty_squares m).length

/-- Total number of candidates across the mapping. -/
def totalCand (ps : PS) : Nat := (ps.map (fun p => p.2.length)).sum

/-- The key list (squares) of the candidate mapping, in order. -/
def psKeys (ps : PS) : List (Nat × Nat) := ps.map Prod.fst

/-- Two coordinates lie in the same 3×3 box. -/
def sameBoxB (c1 c2 : Nat × Nat) : Bool :=
  (c1.1 / 3 == c2.1 / 3) && (c1.2 / 3 == c2.2 / 3)

/-- Two coordinates share a row, a column, or a box. -/
def sameScopeB (c1 c2 : Nat × Nat) : Bool :=
  (c1.1 == c2.1) || (c1.2 == c2.2) || sameBoxB c1 c2

/-- No two distinct placed (digit) cells sharing a scope hold equal values. -/
def consistentB (m : Grid) : Bool :=
  allPos.all (fun c1 => allPos.all (fun c2 =>
    !(c1 != c2 && sameScopeB c1 c2 && isdigitS (getCell m c1.1 c1.2) &&
      isdigitS (getCell m c2.1 c2.2) &&
      (getCell m c1.1 c1.2 == getCell m c2.1 c2.2))))

/-- Every cell either holds one of the digit strings "1".."9" or is not a
digit string at all (an empty marker). -/
def cellsGoodB (m : Grid) : Bool :=
  allPos.all (fun c =>
    digitsS.contains (getCell m c.1 c.2) || !isdigitS (getCell m c.1 c.2))

/-- Every row, every column, and every box contains each digit 1–9 exactly
once. -/
def validB (g : Grid) : Bool :=
  ((List.range 9).all (fun i =>
    digitsS.all (fun d => (rowCells g i).count d == 1))) &&
  ((List.range 9).all (fun j =>
    digitsS.all (fun d => (colCells g j).count d == 1))) &&
  (boxesC.all (fun b =>
    digitsS.all (fun d =>
      ((b.1.flatMap (fun x => b.2.map (fun y => getCell g x y))).count d == 1))))

/-- Placed cells of `m` keep their values in `g`. -/
def Extends (m g : Grid) : Prop :=
  ∀ c : Nat × Nat, isdigitS (getCell m c.1 c.2) = true →
    getCell g c.1 c.2 = getCell m c.1 c.2

/-- `ps'` has the same keys as `ps` in the same order, and each entry's list
is a sublist of the corresponding one. -/
def EntryShrink (ps ps' : PS) : Prop :=
  List.Forall₂ (fun p q => q.1 = p.1 ∧ q.2.Sublist p.2) ps ps'

/-- What the propagation loop guarantees about its outcome, relative to the
grid it started from. -/
def PropOutOK (m : Grid) : PropOut → Prop
  | .solved g => dims9 g = true ∧ find_empty_squares g = [] ∧ Extends m g ∧
      countEmpty g ≤ countEmpty m ∧
      (consistentB m = true → consistentB g = true) ∧
      (cellsGoodB m = true → cellsGoodB g = true)
  | .stalled g ps' => dims9 g = true ∧ psKeys ps' = find_empty_squares g ∧
      (∀ p ∈ ps', p.2.Sublist (candsFor g p.1)) ∧
      countEmpty g ≤ countEmpty m ∧ Extends m g ∧
      (consistentB m = true → consistentB g = true) ∧
      (cellsGoodB m = true → cellsGoodB g = true)

/-- What a successful solve guarantees relative to the starting grid. -/
def SolvedOK (m g : Grid) : Prop :=
  dims9 g = true ∧ find_empty_squares g = [] ∧ Extends m g ∧
    (consistentB m = true → consistentB g = true) ∧
    (cellsGoodB m = true → cellsGoodB g = true)

/-- A complete valid Sudoku grid. -/
def cyclicG : Grid :=
 [["1", "2", "3", "4", "5", "6", "7", "8", "9"],
  ["4", "5", "6", "7", "8", "9", "1", "2", "3"],
  ["7", "8", "9", "1", "2", "3", "4", "5", "6"],
  ["2", "3", "4", "5", "6", "7", "8", "9", "1"],
  ["5", "6", "7", "8", "9", "1", "2", "3", "4"],
  ["8", "9", "1", "2", "3", "4", "5", "6", "7"],
  ["3", "4", "5", "6", "7", "8", "9", "1", "2"],
  ["6", "7", "8", "9", "1", "2", "3", "4", "5"],
  ["9", "1", "2", "3", "4", "5", "6", "7", "8"]]

/-- `cyclicG` with the cell (8, 8) emptied. -/
def gC7 : Grid :=
 [["1", "2", "3", "4", "5", "6", "7", "8", "9"],
  ["4", "5", "6", "7", "8", "9", "1", "2", "3"],
  ["7", "8", "9", "1", "2", "3", "4", "5", "6"],
  ["2", "3", "4", "5", "6", "7", "8", "9", "1"],
  ["5", "6", "7", "8", "9", "1", "2", "3", "4"],
  ["8", "9", "1", "2", "3", "4", "5", "6", "7"],
  ["3", "4", "5", "6", "7", "8", "9", "1", "2"],
  ["6", "7", "8", "9", "1", "2", "3", "4", "5"],
  ["9", "1", "2", "3", "4", "5", "6", "7", "-"]]

/-- A fully filled but invalid grid: every cell holds "1". -/
def allOnesG : Grid :=
 [["1", "1", "1", "1", "1", "1", "1", "1", "1"],
  ["1", "1", "1", "1", "1", "1", "1", "1", "1"],
  ["1", "1", "1", "1", "1", "1", "1", "1", "1"],
  ["1", "1", "1", "1", "1", "1", "1", "1", "1"],
  ["1", "1", "1", "1", "1", "1", "1", "1", "1"],
  ["1", "1", "1", "1", "1", "1", "1", "1", "1"],
  ["1", "1", "1", "1", "1", "1", "1", "1", "1"],
  ["1", "1", "1", "1", "1", "1", "1", "1", "1"],
  ["1", "1", "1", "1", "1", "1", "1", "1", "1"]]

/-! ### Theorems -/

theorem foldl_erase_eq_filter (xs : List Cell) : ∀ (l : List Cell), l.Nodup →
    xs.foldl (fun c e => c.erase e) l = l.filter (fun a => !xs.contains a) := by
  induction xs with
  | nil =>
    intro l _
    simp
  | cons x xs ih =>
    intro l hl
    simp only [List.foldl_cons]
    rw [ih (l.erase x) (hl.erase x), hl.erase_eq_filter x, List.filter_filter]
    refine List.filter_congr fun a _ => ?_
    simp only [List.contains_cons, Bool.not_or]
    rw [Bool.and_comm]
    rfl

theorem digitsS_nodup : digitsS.Nodup := by decide

/-- The computed candidate list is exactly the specification's filter. -/
theorem candsFor_eq_filter (m : Grid) (sq : Nat × Nat) :
    candsFor m sq = specCandidates m sq := by
  unfold candsFor specCandidates
  dsimp only
  simp only [rowCells, colCells, boxCells]
  rw [foldl_erase_eq_filter _ _ digitsS_nodup,
    foldl_erase_eq_filter _ _ (digitsS_nodup.filter _),
    foldl_erase_eq_filter _ _ ((digitsS_nodup.filter _).filter _),
    List.filter_filter, List.filter_filter]
  refine List.filter_congr fun a _ => ?_
  exact (by decide : ∀ x y z : Bool, ((x && y) && z) = ((z && y) && x)) _ _ _

/-- C6: for every grid and every list of its empty cells,
`find_possible_solutions` maps each listed cell to exactly the digits 1–9
not currently placed anywhere in that cell's row, column, or 3×3 box —
no more and no fewer digits are excluded. -/
theorem C6_find_possible_solutions_exact (m : Grid) (empties : List (Nat × Nat)) :
    find_possible_solutions m empties =
      empties.map (fun sq => (sq, specCandidates m sq)) ∧
    ∀ sq : Nat × Nat, ∀ d : Cell,
      (d ∈ specCandidates m sq ↔
        d ∈ digitsS ∧ d ∉ rowCells m sq.1 ∧ d ∉ colCells m sq.2 ∧
          d ∉ boxCells m sq) := by
  constructor
  · unfold find_possible_solutions
    exact List.map_congr_left fun sq _ => by rw [candsFor_eq_filter]
  · intro sq d
    simp [specCandidates, List.mem_filter]
    tauto

/-- C9: for every in-range coordinate pair, `find_box` (computed by range
comparisons) returns exactly the three row indices and three column indices
given by the integer-division reference definition. -/
theorem C9_find_box_eq_div (i j : Nat) (hi : i ≤ 8) (hj : j ≤ 8) :
    find_box (i, j) = box_of_div (i, j) := by
  have h : ∀ a, a < 9 → ∀ b, b < 9 → find_box (a, b) = box_of_div (a, b) := by decide
  exact h i (by omega) j (by omega)

/-- Witness for C9 at the concrete coordinate (4, 7). -/
theorem C9_witness : find_box (4, 7) = box_of_div (4, 7) :=
  C9_find_box_eq_div 4 7 (by decide) (by decide)

theorem psLookup_cons (p : (Nat × Nat) × List Cell) (ps : PS) (c : Nat × Nat) :
    psLookup (p :: ps) c = if p.1 = c then p.2 else psLookup ps c := by
  by_cases h : p.1 = c
  · unfold psLookup
    rw [List.find?_cons_of_pos _ (by simpa using h)]
    simp [h]
  · unfold psLookup
    rw [List.find?_cons_of_neg _ (by simpa using h)]
    simp [h]

theorem psModify_cons (p : (Nat × Nat) × List Cell) (ps : PS) (k : Nat × Nat)
    (f : List Cell → List Cell) :
    psModify (p :: ps) k f =
      (if p.1 == k then (p.1, f p.2) else p) :: psModify ps k f := rfl

theorem psModify_head_fst (p : (Nat × Nat) × List Cell) (k : Nat × Nat)
    (f : List Cell → List Cell) :
    ((if p.1 == k then (p.1, f p.2) else p) : (Nat × Nat) × List Cell).1 = p.1 := by
  by_cases h : p.1 = k <;> simp [h]

theorem psHasKey_cons (p : (Nat × Nat) × List Cell) (ps : PS) (c : Nat × Nat) :
    psHasKey (p :: ps) c = ((p.1 == c) || psHasKey ps c) := rfl

theorem psModify_keys (ps : PS) (k : Nat × Nat) (f : List Cell → List Cell) :
    (psModify ps k f).map Prod.fst = ps.map Prod.fst := by
  induction ps with
  | nil => rfl
  | cons p ps ih =>
    rw [psModify_cons, List.map_cons, List.map_cons, psModify_head_fst, ih]

theorem psHasKey_psModify (ps : PS) (k c : Nat × Nat) (f : List Cell → List Cell) :
    psHasKey (psModify ps k f) c = psHasKey ps c := by
  induction ps with
  | nil => rfl
  | cons p ps ih =>
    rw [psModify_cons, psHasKey_cons, psHasKey_cons, psModify_head_fst, ih]

theorem psLookup_eq_nil_of_not_hasKey (ps : PS) (c : Nat × Nat)
    (h : psHasKey ps c = false) : psLookup ps c = [] := by
  induction ps with
  | nil => rfl
  | cons p ps ih =>
    rw [psHasKey_cons] at h
    rcases Bool.or_eq_false_iff.mp h with ⟨h1, h2⟩
    rw [psLookup_cons, if_neg (by simpa using h1)]
    exact ih h2

theorem psLookup_psModify_ne (ps : PS) (k c : Nat × Nat)
    (f : List Cell → List Cell) (h : c ≠ k) :
    psLookup (psModify ps k f) c = psLookup ps c := by
  induction ps with
  | nil => rfl
  | cons p ps ih =>
    rw [psModify_cons, psLookup_cons, psLookup_cons, psModify_head_fst]
    by_cases hp : p.1 = c
    · rw [if_pos hp, if_pos hp]
      have : (p.1 == k) = false := beq_false_of_ne (by rw [hp]; exact h)
      simp [this]
    · rw [if_neg hp, if_neg hp, ih]

theorem psLookup_psModify_self (ps : PS) (k : Nat × Nat)
    (f : List Cell → List Cell) (h : psHasKey ps k = true) :
    psLookup (psModify ps k f) k = f (psLookup ps k) := by
  induction ps with
  | nil => simp [psHasKey] at h
  | cons p ps ih =>
    rw [psModify_cons, psLookup_cons, psLookup_cons, psModify_head_fst]
    by_cases hp : p.1 = k
    · rw [if_pos hp, if_pos hp]
      simp [hp]
    · rw [if_neg hp, if_neg hp]
      rw [psHasKey_cons] at h
      rcases Bool.or_eq_true_iff.mp h with h1 | h2
      · exact absurd (by simpa using h1) hp
      · exact ih h2

theorem shrinks_refl (rr cr : List BoxResult) (ps : PS) : Shrinks rr cr ps ps :=
  ⟨rfl, fun _ => List.Sublist.refl _, fun _ _ h h' => absurd h h'⟩

/-- One licensed `psModify`-with-`erase` preserves `Shrinks`. -/
theorem shrinks_modify (rr cr : List BoxResult) (ps acc : PS)
    (hs : Shrinks rr cr ps acc) (k : Nat × Nat) (d : Cell)
    (hlic : (∃ r ∈ rr, licensesRow r k d) ∨ (∃ r ∈ cr, licensesCol r k d)) :
    Shrinks rr cr ps (psModify acc k (fun l => l.erase d)) := by
  obtain ⟨hkeys, hsub, hattr⟩ := hs
  refine ⟨(psModify_keys acc k _).trans hkeys, ?_, ?_⟩
  · intro c
    by_cases hc : c = k
    · subst hc
      by_cases hk : psHasKey acc c = true
      · rw [psLookup_psModify_self acc c _ hk]
        exact (List.erase_sublist d _).trans (hsub c)
      · rw [psLookup_eq_nil_of_not_hasKey _ c
          (by rw [psHasKey_psModify]; exact Bool.eq_false_iff.mpr hk)]
        exact List.nil_sublist _
    · rw [psLookup_psModify_ne acc k c _ hc]
      exact hsub c
  · intro c d' hd' hnot
    by_cases hc : c = k
    · subst hc
      by_cases hk : psHasKey acc c = true
      · rw [psLookup_psModify_self acc c _ hk] at hnot
        by_cases hmem : d' ∈ psLookup acc c
        · have hdd : d' = d := by
            by_contra hne
            exact hnot ((List.mem_erase_of_ne hne).mpr hmem)
          subst hdd
          exact hlic
        · exact hattr c d' hd' hmem
      · have hacc : psLookup acc c = [] :=
          psLookup_eq_nil_of_not_hasKey _ c (Bool.eq_false_iff.mpr hk)
        exact hattr c d' hd' (by simp [hacc])
    · rw [psLookup_psModify_ne acc k c _ hc] at hnot
      exact hattr c d' hd' hnot

theorem shrinks_inner_row (rr cr : List BoxResult) (ps : PS) (res : BoxResult)
    (hres : res ∈ rr) (js : List Nat) :
    ∀ acc : PS, Shrinks rr cr ps acc →
      Shrinks rr cr ps (js.foldl (fun acc' j =>
        if res.2.2.2.contains j || !psHasKey acc' (res.2.1, j) then acc'
        else psModify acc' (res.2.1, j) (fun l => l.erase res.1)) acc) := by
  induction js with
  | nil => intro acc h; exact h
  | cons j js ih =>
    intro acc h
    rw [List.foldl_cons]
    apply ih
    by_cases hguard : (res.2.2.2.contains j || !psHasKey acc (res.2.1, j)) = true
    · rw [if_pos hguard]; exact h
    · rw [if_neg hguard]
      rcases Bool.or_eq_false_iff.mp (Bool.eq_false_iff.mpr hguard) with ⟨h1, _⟩
      exact shrinks_modify rr cr ps acc h (res.2.1, j) res.1
        (Or.inl ⟨res, hres, rfl, rfl, by simpa using h1⟩)

theorem shrinks_inner_col (rr cr : List BoxResult) (ps : PS) (res : BoxResult)
    (hres : res ∈ cr) (is : List Nat) :
    ∀ acc : PS, Shrinks rr cr ps acc →
      Shrinks rr cr ps (is.foldl (fun acc' i =>
        if res.2.2.1.contains i || !psHasKey acc' (i, res.2.1) then acc'
        else psModify acc' (i, res.2.1) (fun l => l.erase res.1)) acc) := by
  induction is with
  | nil => intro acc h; exact h
  | cons i is ih =>
    intro acc h
    rw [List.foldl_cons]
    apply ih
    by_cases hguard : (res.2.2.1.contains i || !psHasKey acc (i, res.2.1)) = true
    · rw [if_pos hguard]; exact h
    · rw [if_neg hguard]
      rcases Bool.or_eq_false_iff.mp (Bool.eq_false_iff.mpr hguard) with ⟨h1, _⟩
      exact shrinks_modify rr cr ps acc h (i, res.2.1) res.1
        (Or.inr ⟨res, hres, rfl, rfl, by simpa using h1⟩)

theorem shrinks_row_fold (rr cr : List BoxResult) (ps : PS) :
    ∀ (rs : List BoxResult), (∀ r ∈ rs, r ∈ rr) → ∀ acc : PS,
      Shrinks rr cr ps acc →
      Shrinks rr cr ps (rs.foldl (fun acc res =>
        (List.range 9).foldl (fun acc' j =>
          if res.2.2.2.contains j || !psHasKey acc' (res.2.1, j) then acc'
          else psModify acc' (res.2.1, j) (fun l => l.erase res.1)) acc) acc) := by
  intro rs
  induction rs with
  | nil => intro _ acc h; exact h
  | cons r rs ih =>
    intro hmem acc h
    rw [List.foldl_cons]
    exact ih (fun x hx => hmem x (List.mem_cons_of_mem r hx)) _
      (shrinks_inner_row rr cr ps r (hmem r (List.mem_cons_self r _)) (List.range 9) acc h)

theorem shrinks_col_fold (rr cr : List BoxResult) (ps : PS) :
    ∀ (cs : List BoxResult), (∀ r ∈ cs, r ∈ cr) → ∀ acc : PS,
      Shrinks rr cr ps acc →
      Shrinks rr cr ps (cs.foldl (fun acc res =>
        (List.range 9).foldl (fun acc' i =>
          if res.2.2.1.contains i || !psHasKey acc' (i, res.2.1) then acc'
          else psModify acc' (i, res.2.1) (fun l => l.erase res.1)) acc) acc) := by
  intro cs
  induction cs with
  | nil => intro _ acc h; exact h
  | cons r cs ih =>
    intro hmem acc h
    rw [List.foldl_cons]
    exact ih (fun x hx => hmem x (List.mem_cons_of_mem r hx)) _
      (shrinks_inner_col rr cr ps r (hmem r (List.mem_cons_self r _)) (List.range 9) acc h)

/-- C8 (amended): applying `update_possible_solutions` never adds a digit
(every entry's candidate list shrinks to a sublist, keys unchanged), and a
digit `d` can disappear from a cell `c` only when one of the supplied
results licenses that removal: a row result naming `d`, whose row is `c`'s
row and whose box's columns exclude `c`'s column, or symmetrically a column
result.  (The per-result guard keeps a single result from erasing its digit
inside its own box, but with several results applied together a cell inside
one result's box can still lose that digit to a different result — see the
counterexample.) -/
theorem C8_update_only_licensed_removals (ps : PS) (rr cr : List BoxResult) :
    Shrinks rr cr ps (update_possible_solutions ps rr cr) := by
  unfold update_possible_solutions
  exact shrinks_col_fold rr cr ps cr (fun _ h => h) _
    (shrinks_row_fold rr cr ps rr (fun _ h => h) ps (shrinks_refl rr cr ps))

/-- C8 counterexample: `check_boxes psC8` produces the row result
`("1", 0, box₀)` whose originating box contains the cell (0, 0), yet
applying all produced results removes the digit "1" from (0, 0) — the
column result from the middle-left box erases it there. -/
theorem C8_counterexample :
    ("1", 0, ([0, 1, 2], [0, 1, 2])) ∈ (check_boxes psC8).1 ∧
    (0 : Nat) ∈ ([0, 1, 2] : List Nat) ∧
    "1" ∈ psLookup psC8 (0, 0) ∧
    "1" ∉ psLookup
      (update_possible_solutions psC8 (check_boxes psC8).1 (check_boxes psC8).2)
      (0, 0) := by
  refine ⟨by decide, by decide, by decide, by decide⟩

/-- Witness for C8: the amended theorem applied at the counterexample state
attributes the removal of "1" at (0, 0) to a licensing result. -/
theorem C8_witness :
    ("1" ∈ psLookup psC8 (0, 0)) ∧
    ((∃ r ∈ (check_boxes psC8).1, licensesRow r (0, 0) "1") ∨
      (∃ r ∈ (check_boxes psC8).2, licensesCol r (0, 0) "1")) :=
  ⟨by decide,
    (C8_update_only_licensed_removals psC8 (check_boxes psC8).1
          (check_boxes psC8).2).2.2 (0, 0) "1" (by decide) (by decide)⟩

theorem foldl_min_le_init (l : List Nat) : ∀ a : Nat, l.foldl Nat.min a ≤ a := by
  induction l with
  | nil => intro a; exact Nat.le_refl a
  | cons x l ih =>
    intro a
    exact Nat.le_trans (ih (Nat.min a x)) (Nat.min_le_left a x)

theorem foldl_min_le_mem (l : List Nat) : ∀ a b : Nat, b ∈ l →
    l.foldl Nat.min a ≤ b := by
  induction l with
  | nil => intro a b h; cases h
  | cons x l ih =>
    intro a b h
    rcases List.mem_cons.mp h with h | h
    · subst h
      exact Nat.le_trans (foldl_min_le_init l _) (Nat.min_le_right a b)
    · exact ih _ b h

theorem foldl_min_attained (l : List Nat) : ∀ a : Nat,
    l.foldl Nat.min a = a ∨ l.foldl Nat.min a ∈ l := by
  induction l with
  | nil => intro a; exact Or.inl rfl
  | cons x l ih =>
    intro a
    have hmm : Nat.min a x = min a x := rfl
    rcases ih (Nat.min a x) with h | h
    · rcases Nat.le_total a x with hle | hle
      · left
        rw [List.foldl_cons, h, hmm]
        omega
      · right
        rw [List.foldl_cons, h]
        have hx : Nat.min a x = x := by rw [hmm]; omega
        rw [hx]
        exact List.mem_cons_self x l
    · exact Or.inr (List.mem_cons_of_mem x h)

theorem minLen_le (ps : PS) : ∀ p ∈ ps, minLen ps ≤ p.2.length := by
  intro p hp
  cases ps with
  | nil => cases hp
  | cons q rest =>
    show rest.foldl (fun a q => Nat.min a q.2.length) q.2.length ≤ p.2.length
    rw [← List.foldl_map (fun r => r.2.length) Nat.min rest q.2.length]
    rcases List.mem_cons.mp hp with h | h
    · subst h
      exact foldl_min_le_init _ _
    · exact foldl_min_le_mem _ _ _ (List.mem_map_of_mem _ h)

theorem minLen_attained (ps : PS) (h : ps ≠ []) :
    ∃ p ∈ ps, p.2.length = minLen ps := by
  cases ps with
  | nil => exact absurd rfl h
  | cons q rest =>
    have : minLen (q :: rest) =
        (rest.map (fun r => r.2.length)).foldl Nat.min q.2.length := by
      show rest.foldl (fun a r => Nat.min a r.2.length) q.2.length = _
      rw [List.foldl_map]
    rcases foldl_min_attained (rest.map (fun r => r.2.length)) q.2.length with
      hca | hca
    · exact ⟨q, List.mem_cons_self q rest, by rw [this, hca]⟩
    · rcases List.mem_map.mp hca with ⟨r, hr, hrl⟩
      exact ⟨r, List.mem_cons_of_mem q hr, by rw [this, hrl]⟩

/-- C10: a non-empty candidate mapping holding an empty candidate list
makes `check_possible_scenarios` return `None` with zero branch copies
(the copy count is the minimum candidate-list size, which is 0), so no
digit is placed and no branch explored. -/
theorem C10_empty_candidates_fail (pf f : Nat) (m : Grid) (ps : PS)
    (_hne : ps ≠ []) (hz : ∃ p ∈ ps, p.2 = []) :
    minLen ps = 0 ∧
    check_possible_scenarios pf (f + 1) m ps = some none := by
  obtain ⟨p, hp, hpnil⟩ := hz
  have h0 : minLen ps = 0 := by
    have := minLen_le ps p hp
    rw [hpnil] at this
    exact Nat.le_zero.mp this
  refine ⟨h0, ?_⟩
  rw [check_possible_scenarios]
  cases hfind : ps.find? (fun p => p.2.length == minLen ps) with
  | none => rfl
  | some entry =>
    rw [h0]
    simp [tryCopies]

/-- Witness for C10 at a concrete one-entry mapping with an empty list. -/
theorem C10_witness :
    minLen [((0, 0), ([] : List Cell))] = 0 ∧
    check_possible_scenarios 0 1 [] [((0, 0), ([] : List Cell))] = some none :=
  C10_empty_candidates_fail 0 0 [] [((0, 0), [])] (by simp)
    ⟨((0, 0), []), List.mem_cons_self _ _, rfl⟩

/-- C5 (amended): each iteration of the propagation loop dispatches in
strict priority order, with step (1) triggered by the *minimum*
candidate-list length being exactly one (not by the mere existence of a
length-one list): (1) place the first square whose list has length one;
(2) otherwise place the first square (scanning lengths 2..9, then mapping
order) forced by single-scope elimination; (3) otherwise run box-scoped
confinement and, when it changed the mapping, keep it and restart;
(4) when confinement changed nothing, hand the state to the search engine. -/
theorem C5_loop_priority (ps : PS) :
    (∀ p, minLen ps = 1 → ps.find? (fun q => q.2.length == 1) = some p →
      loopStep ps = .place p.1 (p.2.getD 0 "")) ∧
    (∀ sq v, minLen ps ≠ 1 → step2find ps = some (sq, v) →
      loopStep ps = .place sq v) ∧
    (minLen ps ≠ 1 → step2find ps = none →
      update_possible_solutions ps (check_boxes ps).1 (check_boxes ps).2 ≠ ps →
      loopStep ps =
        .confine (update_possible_solutions ps (check_boxes ps).1 (check_boxes ps).2)) ∧
    (minLen ps ≠ 1 → step2find ps = none →
      update_possible_solutions ps (check_boxes ps).1 (check_boxes ps).2 = ps →
      loopStep ps = .search ps) ∧
    (∀ (f : Nat) (m : Grid) (empties : List (Nat × Nat)) (sq : Nat × Nat) (v : Cell),
      empties.isEmpty = false → loopStep ps = .place sq v →
      propagate (f + 1) m empties ps =
        propagate f (setCell m sq.1 sq.2 v) (empties.erase sq)
          (find_possible_solutions (setCell m sq.1 sq.2 v) (empties.erase sq))) ∧
    (∀ (f : Nat) (m : Grid) (empties : List (Nat × Nat)) (ps' : PS),
      empties.isEmpty = false → loopStep ps = .confine ps' →
      propagate (f + 1) m empties ps = propagate f m empties ps') ∧
    (∀ (f : Nat) (m : Grid) (empties : List (Nat × Nat)) (ps' : PS),
      empties.isEmpty = false → loopStep ps = .search ps' →
      propagate (f + 1) m empties ps = some (.stalled m ps')) := by
  refine ⟨?_, ?_, ?_, ?_, ?_, ?_, ?_⟩
  · intro p h1 h2
    simp [loopStep, h1, h2]
  · intro sq v h1 h2
    simp [loopStep, h1, h2]
  · intro h1 h2 h3
    simp [loopStep, h1, h2, h3]
  · intro h1 h2 h3
    simp [loopStep, h1, h2, h3]
  · intro f m empties sq v h1 h2
    simp [propagate, h1, h2]
  · intro f m empties ps' h1 h2
    simp [propagate, h1, h2]
  · intro f m empties ps' h1 h2
    simp [propagate, h1, h2]

/-- Witness for C5 on a one-entry mapping with a single candidate: step (1)
places it. -/
theorem C5_witness :
    loopStep [((0, 0), ["5"])] = .place (0, 0) "5" :=
  (C5_loop_priority [((0, 0), ["5"])]).1 ((0, 0), ["5"]) (by decide) (by decide)

/-- C5 counterexample: in the state `psC5`, the cell (8, 8) has a candidate
set with exactly one member, yet the loop iteration performs no placement at
all — the minimum length is 0 (cell (0, 0)), so step (1) does not fire and
the iteration falls through to the search hand-off. -/
theorem C5_counterexample :
    (((8, 8), ["8"]) ∈ psC5) ∧ minLen psC5 = 0 ∧
    loopStep psC5 = .search psC5 :=
  ⟨by decide, by decide, by decide⟩

/-- C3 (amended): the paradox check happens only at the entry of a search
branch, right after the branch's candidate recomputation: a branch whose
fresh candidate mapping contains an empty list is skipped entirely, with no
propagation performed on it.  (Mid-loop paradoxes do not abort propagation
— see the counterexample.) -/
theorem C3_branch_paradox_skips_branch (pf f : Nat) (c : Grid)
    (rest : List Grid)
    (h : check_paradox (find_possible_solutions c (find_empty_squares c)) = true) :
    tryCopies pf f (c :: rest) = tryCopies pf f rest := by
  simp [tryCopies, h]

/-- C3 counterexample: the state `psC3` contains a still-unfilled cell with
an empty candidate set, yet the propagation iteration does not abort —
it performs a further single-scope-elimination placement, filling (4, 4)
with "9". -/
theorem C3_counterexample :
    check_paradox psC3 = true ∧ loopStep psC3 = .place (4, 4) "9" :=
  ⟨by decide, by decide⟩

/-- Witness for C3: a branch on the concrete grid `gC3` (whose fresh
candidates contain a paradox) is skipped by the branch loop. -/
theorem C3_witness : tryCopies 0 0 [gC3] = tryCopies 0 0 [] :=
  C3_branch_paradox_skips_branch 0 0 gC3 [] (by decide)

theorem find?_decomp {α : Type} (p : α → Bool) :
    ∀ (l : List α) (a : α), l.find? p = some a →
      ∃ pre post, l = pre ++ a :: post ∧ ∀ x ∈ pre, p x = false := by
  intro l
  induction l with
  | nil => intro a h; cases h
  | cons x l ih =>
    intro a h
    by_cases hx : p x = true
    · rw [List.find?_cons_of_pos _ hx] at h
      cases h
      exact ⟨[], l, rfl, fun y hy => absurd hy (List.not_mem_nil y)⟩
    · rw [List.find?_cons_of_neg _ hx] at h
      obtain ⟨pre, post, heq, hpre⟩ := ih a h
      refine ⟨x :: pre, post, by rw [heq]; rfl, ?_⟩
      intro y hy
      rcases List.mem_cons.mp hy with hy | hy
      · subst hy; exact Bool.eq_false_iff.mpr hx
      · exact hpre y hy

theorem range_map_getD {α β : Type} (l : List α) (d : α) (F : α → β) :
    (List.range l.length).map (fun n => F (l.getD n d)) = l.map F := by
  induction l with
  | nil => rfl
  | cons a l ih =>
    rw [List.length_cons, List.range_succ_eq_map, List.map_cons, List.map_map]
    congr 1

/-- C4: when propagation stalls, the search engine (i) selects the first
mapping entry attaining the minimum candidate-list length (encounter order
breaks ties — every earlier entry has a strictly longer list), (ii) builds
one grid copy per candidate digit of that cell in enumeration order, each
copy placing that digit, and processes them through the branch loop, which
(iii) skips a branch whose fresh candidates hold a paradox, (iv) returns a
solved branch immediately, exploring no further branches, (v) returns a
successfully recursed branch immediately, (vi) moves to the next branch
when the recursion reports failure, and (vii) returns `None` once every
branch has failed.  Each copy is an independent value (`setCell` builds a
new grid), so sibling branches never see each other's placements. -/
theorem C4_search_engine (pf f : Nat) (m : Grid) (ps : PS) (hne : ps ≠ []) :
    (∃ pre entry post, ps = pre ++ entry :: post ∧
      (∀ q ∈ pre, minLen ps < q.2.length) ∧
      entry.2.length = minLen ps ∧
      check_possible_scenarios pf (f + 1) m ps =
        tryCopies pf f (entry.2.map (fun v => setCell m entry.1.1 entry.1.2 v))) ∧
    tryCopies pf f [] = some none ∧
    (∀ (c : Grid) (rest : List Grid),
      check_paradox (find_possible_solutions c (find_empty_squares c)) = true →
      tryCopies pf f (c :: rest) = tryCopies pf f rest) ∧
    (∀ (c : Grid) (rest : List Grid) (g : Grid),
      check_paradox (find_possible_solutions c (find_empty_squares c)) = false →
      propagate pf c (find_empty_squares c)
          (find_possible_solutions c (find_empty_squares c)) = some (.solved g) →
      tryCopies pf f (c :: rest) = some (some g)) ∧
    (∀ (c : Grid) (rest : List Grid) (g g' : Grid) (ps'' : PS),
      check_paradox (find_possible_solutions c (find_empty_squares c)) = false →
      propagate pf c (find_empty_squares c)
          (find_possible_solutions c (find_empty_squares c)) = some (.stalled g ps'') →
      check_possible_scenarios pf f g ps'' = some (some g') →
      tryCopies pf f (c :: rest) = some (some g')) ∧
    (∀ (c : Grid) (rest : List Grid) (g : Grid) (ps'' : PS),
      check_paradox (find_possible_solutions c (find_empty_squares c)) = false →
      propagate pf c (find_empty_squares c)
          (find_possible_solutions c (find_empty_squares c)) = some (.stalled g ps'') →
      check_possible_scenarios pf f g ps'' = some none →
      tryCopies pf f (c :: rest) = tryCopies pf f rest) := by
  refine ⟨?_, by simp [tryCopies], ?_, ?_, ?_, ?_⟩
  · obtain ⟨p, hp, hlen⟩ := minLen_attained ps hne
    have hsome : (ps.find? (fun q => q.2.length == minLen ps)).isSome = true :=
      List.find?_isSome.mpr ⟨p, hp, by simpa using hlen⟩
    obtain ⟨entry, hfind⟩ := Option.isSome_iff_exists.mp hsome
    obtain ⟨pre, post, heq, hpre⟩ := find?_decomp _ ps entry hfind
    have hentry : entry.2.length = minLen ps := by
      simpa using List.find?_some hfind
    refine ⟨pre, entry, post, heq, ?_, hentry, ?_⟩
    · intro q hq
      have hmem : q ∈ ps := by
        rw [heq]; exact List.mem_append_left _ hq
      have hne' : q.2.length ≠ minLen ps := by
        have := hpre q hq
        simpa using this
      exact Nat.lt_of_le_of_ne (minLen_le ps q hmem) (Ne.symm hne')
    · rw [check_possible_scenarios, hfind]
      dsimp only
      rw [← hentry,
        range_map_getD entry.2 "" (fun v => setCell m entry.1.1 entry.1.2 v)]
  · intro c rest h
    simp [tryCopies, h]
  · intro c rest g h1 h2
    simp [tryCopies, h1, h2]
  · intro c rest g g' ps'' h1 h2 h3
    simp [tryCopies, h1, h2, h3]
  · intro c rest g ps'' h1 h2 h3
    simp [tryCopies, h1, h2, h3]

/-- Witness for C4: the all-failed case at a concrete instance. -/
theorem C4_witness : tryCopies 0 0 [] = some none :=
  (C4_search_engine 0 0 [] [((0, 0), ["1"])] (by simp)).2.1

theorem extends_refl (m : Grid) : Extends m m := fun _ _ => rfl

theorem extends_trans {m g h : Grid} (h1 : Extends m g) (h2 : Extends g h) :
    Extends m h := by
  intro c hd
  rw [h2 c (by rw [h1 c hd]; exact hd), h1 c hd]

/-- Membership characterization of the computed candidate list. -/
theorem mem_candsFor (m : Grid) (sq : Nat × Nat) (d : Cell) :
    d ∈ candsFor m sq ↔
      d ∈ digitsS ∧ d ∉ rowCells m sq.1 ∧ d ∉ colCells m sq.2 ∧
        d ∉ boxCells m sq := by
  rw [candsFor_eq_filter]
  simp [specCandidates, List.mem_filter]
  tauto

theorem candsFor_sublist_digits (m : Grid) (sq : Nat × Nat) :
    (candsFor m sq).Sublist digitsS := by
  rw [candsFor_eq_filter]
  exact List.filter_sublist _

theorem candsFor_length_le (m : Grid) (sq : Nat × Nat) :
    (candsFor m sq).length ≤ 9 :=
  (candsFor_sublist_digits m sq).length_le

theorem allPos_nodup : allPos.Nodup := by decide

theorem mem_allPos (c : Nat × Nat) : c ∈ allPos ↔ c.1 < 9 ∧ c.2 < 9 := by
  cases c with
  | mk i j => simp [allPos, List.mem_flatMap, List.mem_map, List.mem_range]

theorem dims9_row_len (m : Grid) (h : dims9 m = true) (i : Nat) (hi : i < 9) :
    (m.getD i []).length = 9 := by
  unfold dims9 at h
  rcases Bool.and_eq_true_iff.mp h with ⟨h1, h2⟩
  have hlen : m.length = 9 := by simpa using h1
  have hrow : m.getD i [] ∈ m := by
    have : i < m.length := by omega
    rw [List.getD_eq_getElem?_getD, List.getElem?_eq_getElem this]
    exact List.getElem_mem this
  have := List.all_eq_true.mp h2 _ hrow
  simpa using this

theorem dims9_len (m : Grid) (h : dims9 m = true) : m.length = 9 := by
  unfold dims9 at h
  rcases Bool.and_eq_true_iff.mp h with ⟨h1, _⟩
  simpa using h1

theorem flatMap_congr {α β : Type} {l : List α} {f g : α → List β}
    (h : ∀ x ∈ l, f x = g x) : l.flatMap f = l.flatMap g := by
  induction l with
  | nil => rfl
  | cons a l ih =>
    rw [List.flatMap_cons, List.flatMap_cons, h a (List.mem_cons_self a l),
      ih (fun x hx => h x (List.mem_cons_of_mem _ hx))]

theorem filterMap_if_eq (m : Grid) (i : Nat) (l : List Nat) :
    l.filterMap (fun j => if isdigitS (getCell m i j) then none else some (i, j)) =
      (l.map (fun j => (i, j))).filter
        (fun c => !isdigitS (getCell m c.1 c.2)) := by
  induction l with
  | nil => rfl
  | cons x l ih =>
    by_cases h : isdigitS (getCell m i x) = true <;>
      simp [List.filterMap_cons, h, ih]

/-- Under `dims9`, the empty-square list is the row-major filter of the 81
coordinates by "not a digit". -/
theorem find_empty_eq_filter (m : Grid) (h : dims9 m = true) :
    find_empty_squares m =
      allPos.filter (fun c => !isdigitS (getCell m c.1 c.2)) := by
  unfold find_empty_squares allPos
  rw [dims9_len m h, List.filter_flatMap]
  refine flatMap_congr fun i hi => ?_
  rw [dims9_row_len m h i (List.mem_range.mp hi), filterMap_if_eq]

theorem mem_find_empty (m : Grid) (h : dims9 m = true) (c : Nat × Nat) :
    c ∈ find_empty_squares m ↔
      c.1 < 9 ∧ c.2 < 9 ∧ isdigitS (getCell m c.1 c.2) = false := by
  rw [find_empty_eq_filter m h, List.mem_filter, mem_allPos]
  simp [and_assoc]

theorem find_empty_nodup (m : Grid) (h : dims9 m = true) :
    (find_empty_squares m).Nodup := by
  rw [find_empty_eq_filter m h]
  exact allPos_nodup.filter _

theorem countEmpty_le (m : Grid) (h : dims9 m = true) : countEmpty m ≤ 81 := by
  unfold countEmpty
  rw [find_empty_eq_filter m h]
  calc (allPos.filter _).length ≤ allPos.length := List.length_filter_le _ _
  _ = 81 := by decide

theorem getCell_eq_getElem? (m : Grid) (i j : Nat) :
    getCell m i j = (m[i]?.getD [])[j]?.getD "" := by
  unfold getCell
  rw [List.getD_eq_getElem?_getD m i [], List.getD_eq_getElem?_getD]

theorem getCell_setCell_eq (m : Grid) (i j : Nat) (v : Cell)
    (hi : i < m.length) (hj : j < (m.getD i []).length) :
    getCell (setCell m i j v) i j = v := by
  rw [getCell_eq_getElem?]
  unfold setCell
  rw [List.getElem?_set_self hi]
  simp only [Option.getD_some]
  rw [List.getElem?_set_self hj]
  rfl

theorem getCell_setCell_ne (m : Grid) (i j : Nat) (v : Cell) (x y : Nat)
    (hne : ¬(x = i ∧ y = j)) :
    getCell (setCell m i j v) x y = getCell m x y := by
  rw [getCell_eq_getElem?, getCell_eq_getElem? m]
  unfold setCell
  by_cases hx : x = i
  · subst hx
    have hy : y ≠ j := fun hy => hne ⟨rfl, hy⟩
    by_cases hlt : x < m.length
    · rw [List.getElem?_set_self hlt]
      simp only [Option.getD_some]
      rw [List.getElem?_set_ne (fun h => hy h.symm)]
      have hrow : m[x]? = some (m.getD x []) := by
        rw [List.getD_eq_getElem?_getD, List.getElem?_eq_getElem hlt]
        rfl
      rw [hrow]
      rfl
    · rw [List.getElem?_set]
      simp only [if_pos rfl, if_neg hlt]
      have : m[x]? = none := List.getElem?_eq_none (by omega)
      rw [this]
      simp
  · rw [List.getElem?_set_ne (fun h => hx h.symm)]

theorem getD_mem {α : Type} (l : List α) (n : Nat) (d : α) (h : n < l.length) :
    l.getD n d ∈ l := by
  rw [List.getD_eq_getElem?_getD, List.getElem?_eq_getElem h]
  exact List.getElem_mem h

/-- Helper form of the `find_box` = integer-division characterization. -/
theorem find_box_div (i j : Nat) (hi : i < 9) (hj : j < 9) :
    find_box (i, j) =
      ([3 * (i / 3), 3 * (i / 3) + 1, 3 * (i / 3) + 2],
       [3 * (j / 3), 3 * (j / 3) + 1, 3 * (j / 3) + 2]) := by
  have h : ∀ a, a < 9 → ∀ b, b < 9 → find_box (a, b) =
      ([3 * (a / 3), 3 * (a / 3) + 1, 3 * (a / 3) + 2],
       [3 * (b / 3), 3 * (b / 3) + 1, 3 * (b / 3) + 2]) := by decide
  exact h i hi j hj

theorem mem_box_span (k a : Nat) :
    a ∈ [3 * k, 3 * k + 1, 3 * k + 2] ↔ a / 3 = k := by
  simp only [List.mem_cons, List.mem_singleton, List.not_mem_nil, or_false]
  omega

theorem getCell_mem_rowCells (m : Grid) (hd : dims9 m = true) (i y : Nat)
    (hi : i < 9) (hy : y < 9) : getCell m i y ∈ rowCells m i := by
  unfold getCell rowCells
  exact getD_mem _ y "" (by rw [dims9_row_len m hd i hi]; omega)

theorem getCell_mem_colCells (m : Grid) (hd : dims9 m = true) (x j : Nat)
    (hx : x < 9) : getCell m x j ∈ colCells m j := by
  unfold getCell colCells
  exact List.mem_map_of_mem _ (getD_mem m x [] (by rw [dims9_len m hd]; omega))

theorem getCell_mem_boxCells (m : Grid) (sq c : Nat × Nat)
    (hc1 : c.1 < 9) (hc2 : c.2 < 9) (hs1 : sq.1 < 9) (hs2 : sq.2 < 9)
    (hbox : sameBoxB sq c = true) :
    getCell m c.1 c.2 ∈ boxCells m sq := by
  unfold boxCells
  rcases Bool.and_eq_true_iff.mp hbox with ⟨hb1, hb2⟩
  have hb1 : sq.1 / 3 = c.1 / 3 := by simpa using hb1
  have hb2 : sq.2 / 3 = c.2 / 3 := by simpa using hb2
  have hfb : find_box sq =
      ([3 * (sq.1 / 3), 3 * (sq.1 / 3) + 1, 3 * (sq.1 / 3) + 2],
       [3 * (sq.2 / 3), 3 * (sq.2 / 3) + 1, 3 * (sq.2 / 3) + 2]) := by
    have := find_box_div sq.1 sq.2 hs1 hs2
    simpa using this
  rw [hfb]
  refine List.mem_flatMap.mpr ⟨c.1, ?_, List.mem_map_of_mem _ ?_⟩
  · exact (mem_box_span _ _).mpr hb1.symm
  · exact (mem_box_span _ _).mpr hb2.symm

/-- Prop form of `consistentB`. -/
theorem consistentB_iff (m : Grid) : consistentB m = true ↔
    ∀ c1 c2 : Nat × Nat, c1.1 < 9 → c1.2 < 9 → c2.1 < 9 → c2.2 < 9 →
      c1 ≠ c2 → sameScopeB c1 c2 = true →
      isdigitS (getCell m c1.1 c1.2) = true →
      isdigitS (getCell m c2.1 c2.2) = true →
      getCell m c1.1 c1.2 ≠ getCell m c2.1 c2.2 := by
  unfold consistentB
  rw [List.all_eq_true]
  constructor
  · intro H c1 c2 h11 h12 h21 h22 hne hsc hd1 hd2
    have h1 := H c1 ((mem_allPos _).mpr ⟨h11, h12⟩)
    have h2 := List.all_eq_true.mp h1 c2 ((mem_allPos _).mpr ⟨h21, h22⟩)
    revert h2
    by_cases h : c1 = c2 <;>
      cases hb : sameScopeB c1 c2 <;>
      simp [h, hb, hd1, hd2, hsc] at hsc ⊢ <;>
      tauto
  · intro H c1 hc1
    rw [List.all_eq_true]
    intro c2 hc2
    obtain ⟨h11, h12⟩ := (mem_allPos _).mp hc1
    obtain ⟨h21, h22⟩ := (mem_allPos _).mp hc2
    have := H c1 c2 h11 h12 h21 h22
    by_cases h : c1 = c2 <;>
      cases hb : sameScopeB c1 c2 <;>
      cases hd1 : isdigitS (getCell m c1.1 c1.2) <;>
      cases hd2 : isdigitS (getCell m c2.1 c2.2) <;>
      simp [h, hb, hd1, hd2] <;>
      exact this h hb hd1 hd2

/-- Prop form of `cellsGoodB`. -/
theorem cellsGoodB_iff (m : Grid) : cellsGoodB m = true ↔
    ∀ c : Nat × Nat, c.1 < 9 → c.2 < 9 →
      isdigitS (getCell m c.1 c.2) = true → getCell m c.1 c.2 ∈ digitsS := by
  unfold cellsGoodB
  rw [List.all_eq_true]
  constructor
  · intro H c h1 h2 hd
    have := H c ((mem_allPos _).mpr ⟨h1, h2⟩)
    rcases Bool.or_eq_true_iff.mp this with hk | hk
    · simpa using hk
    · rw [hd] at hk
      cases hk
  · intro H c hc
    obtain ⟨h1, h2⟩ := (mem_allPos _).mp hc
    by_cases hd : isdigitS (getCell m c.1 c.2) = true
    · exact Bool.or_eq_true_iff.mpr (Or.inl (by simpa using H c h1 h2 hd))
    · exact Bool.or_eq_true_iff.mpr (Or.inr (by simp [Bool.eq_false_iff.mpr hd]))

theorem dims9_setCell (m : Grid) (i j : Nat) (v : Cell) (hi : i < 9)
    (h : dims9 m = true) : dims9 (setCell m i j v) = true := by
  have h2 := (Bool.and_eq_true_iff.mp h).2
  unfold dims9
  refine Bool.and_eq_true_iff.mpr ⟨?_, ?_⟩
  · unfold setCell
    rw [List.length_set]
    exact (Bool.and_eq_true_iff.mp h).1
  · rw [List.all_eq_true]
    intro r hr
    rcases List.mem_or_eq_of_mem_set hr with hmem | heq
    · exact List.all_eq_true.mp h2 r hmem
    · subst heq
      simp only [List.length_set]
      have := dims9_row_len m h i hi
      simpa using this

theorem ne_pair_of_ne {c sq : Nat × Nat} (h : c ≠ sq) :
    ¬(c.1 = sq.1 ∧ c.2 = sq.2) := by
  intro ⟨h1, h2⟩
  exact h (Prod.ext h1 h2)

/-- Placing a digit into a listed empty square removes exactly that square
from the empty list. -/
theorem find_empty_setCell (m : Grid) (sq : Nat × Nat) (v : Cell)
    (hd : dims9 m = true) (hsq : sq ∈ find_empty_squares m)
    (hv : isdigitS v = true) :
    find_empty_squares (setCell m sq.1 sq.2 v) =
      (find_empty_squares m).erase sq := by
  obtain ⟨h1, h2, h3⟩ := (mem_find_empty m hd sq).mp hsq
  have hd' : dims9 (setCell m sq.1 sq.2 v) = true := dims9_setCell m _ _ v h1 hd
  rw [find_empty_eq_filter _ hd', find_empty_eq_filter m hd,
    (allPos_nodup.filter _).erase_eq_filter sq, List.filter_filter]
  refine List.filter_congr fun c hc => ?_
  by_cases hcsq : c = sq
  · subst hcsq
    have hget : getCell (setCell m c.1 c.2 v) c.1 c.2 = v :=
      getCell_setCell_eq m c.1 c.2 v (by rw [dims9_len m hd]; omega)
        (by rw [dims9_row_len m hd c.1 h1]; omega)
    rw [hget, hv]
    simp
  · have hget : getCell (setCell m sq.1 sq.2 v) c.1 c.2 = getCell m c.1 c.2 :=
      getCell_setCell_ne m sq.1 sq.2 v c.1 c.2 (ne_pair_of_ne hcsq)
    rw [hget]
    have hbne : (c != sq) = true := by simp [hcsq]
    rw [hbne]
    simp

theorem countEmpty_setCell (m : Grid) (sq : Nat × Nat) (v : Cell)
    (hd : dims9 m = true) (hsq : sq ∈ find_empty_squares m)
    (hv : isdigitS v = true) :
    countEmpty (setCell m sq.1 sq.2 v) + 1 = countEmpty m := by
  unfold countEmpty
  rw [find_empty_setCell m sq v hd hsq hv, List.length_erase_of_mem hsq]
  have : (find_empty_squares m).length ≠ 0 :=
    fun h => by simpa [List.length_eq_zero.mp h] using hsq
  omega

theorem extends_setCell (m : Grid) (sq : Nat × Nat) (v : Cell)
    (hd : dims9 m = true) (hsq : sq ∈ find_empty_squares m) :
    Extends m (setCell m sq.1 sq.2 v) := by
  obtain ⟨h1, h2, h3⟩ := (mem_find_empty m hd sq).mp hsq
  intro c hdig
  by_cases hcsq : c = sq
  · subst hcsq
    rw [h3] at hdig
    cases hdig
  · exact getCell_setCell_ne m sq.1 sq.2 v c.1 c.2 (ne_pair_of_ne hcsq)

theorem consistent_setCell (m : Grid) (sq : Nat × Nat) (v : Cell)
    (hd : dims9 m = true) (hsq : sq ∈ find_empty_squares m)
    (hv : v ∈ candsFor m sq) (hc : consistentB m = true) :
    consistentB (setCell m sq.1 sq.2 v) = true := by
  obtain ⟨hs1, hs2, hemp⟩ := (mem_find_empty m hd sq).mp hsq
  obtain ⟨hvd, hvr, hvc, hvb⟩ := (mem_candsFor m sq v).mp hv
  have hget : getCell (setCell m sq.1 sq.2 v) sq.1 sq.2 = v :=
    getCell_setCell_eq m sq.1 sq.2 v (by rw [dims9_len m hd]; omega)
      (by rw [dims9_row_len m hd sq.1 hs1]; omega)
  rw [consistentB_iff] at hc ⊢
  intro c1 c2 h11 h12 h21 h22 hne hsc hd1 hd2
  have hval : ∀ c : Nat × Nat, c.1 < 9 → c.2 < 9 → c ≠ sq →
      sameScopeB sq c = true → isdigitS (getCell m c.1 c.2) = true →
      v ≠ getCell m c.1 c.2 := by
    intro c hx1 hx2 hcsq hscope hdig hveq
    rcases Bool.or_eq_true_iff.mp hscope with hrc | hbx
    · rcases Bool.or_eq_true_iff.mp hrc with hr | hcc
      · have : getCell m c.1 c.2 ∈ rowCells m sq.1 := by
          have := getCell_mem_rowCells m hd c.1 c.2 hx1 hx2
          rwa [show sq.1 = c.1 by simpa using hr]
        exact hvr (hveq ▸ this)
      · have : getCell m c.1 c.2 ∈ colCells m sq.2 := by
          have := getCell_mem_colCells m hd c.1 c.2 hx1
          rwa [show sq.2 = c.2 by simpa using hcc]
        exact hvc (hveq ▸ this)
    · exact hvb (hveq ▸ getCell_mem_boxCells m sq c hx1 hx2 hs1 hs2 hbx)
  by_cases hc1s : c1 = sq <;> by_cases hc2s : c2 = sq
  · exact absurd (hc1s.trans hc2s.symm) hne
  · subst hc1s
    rw [hget]
    have hg2 : getCell (setCell m c1.1 c1.2 v) c2.1 c2.2 = getCell m c2.1 c2.2 :=
      getCell_setCell_ne m c1.1 c1.2 v c2.1 c2.2 (ne_pair_of_ne hc2s)
    rw [hg2] at hd2 ⊢
    exact hval c2 h21 h22 hc2s hsc hd2
  · subst hc2s
    rw [hget]
    have hg1 : getCell (setCell m c2.1 c2.2 v) c1.1 c1.2 = getCell m c1.1 c1.2 :=
      getCell_setCell_ne m c2.1 c2.2 v c1.1 c1.2 (ne_pair_of_ne hc1s)
    rw [hg1] at hd1 ⊢
    have hscope : sameScopeB c2 c1 = true := by
      unfold sameScopeB sameBoxB at hsc ⊢
      rcases Bool.or_eq_true_iff.mp hsc with hx | hx
      · rcases Bool.or_eq_true_iff.mp hx with hy | hy
        · refine Bool.or_eq_true_iff.mpr (Or.inl (Bool.or_eq_true_iff.mpr (Or.inl ?_)))
          simp at hy ⊢
          omega
        · refine Bool.or_eq_true_iff.mpr (Or.inl (Bool.or_eq_true_iff.mpr (Or.inr ?_)))
          simp at hy ⊢
          omega
      · refine Bool.or_eq_true_iff.mpr (Or.inr ?_)
        rcases Bool.and_eq_true_iff.mp hx with ⟨hy, hz⟩
        refine Bool.and_eq_true_iff.mpr ⟨?_, ?_⟩ <;> simp at hy hz ⊢ <;> omega
    exact fun h => hval c1 h11 h12 hc1s hscope hd1 h.symm
  · have hg1 : getCell (setCell m sq.1 sq.2 v) c1.1 c1.2 = getCell m c1.1 c1.2 :=
      getCell_setCell_ne m sq.1 sq.2 v c1.1 c1.2 (ne_pair_of_ne hc1s)
    have hg2 : getCell (setCell m sq.1 sq.2 v) c2.1 c2.2 = getCell m c2.1 c2.2 :=
      getCell_setCell_ne m sq.1 sq.2 v c2.1 c2.2 (ne_pair_of_ne hc2s)
    rw [hg1] at hd1 ⊢
    rw [hg2] at hd2 ⊢
    exact hc c1 c2 h11 h12 h21 h22 hne hsc hd1 hd2

theorem cellsGood_setCell (m : Grid) (sq : Nat × Nat) (v : Cell)
    (hd : dims9 m = true) (hsq : sq ∈ find_empty_squares m)
    (hv : v ∈ digitsS) (hg : cellsGoodB m = true) :
    cellsGoodB (setCell m sq.1 sq.2 v) = true := by
  obtain ⟨hs1, hs2, hemp⟩ := (mem_find_empty m hd sq).mp hsq
  have hget : getCell (setCell m sq.1 sq.2 v) sq.1 sq.2 = v :=
    getCell_setCell_eq m sq.1 sq.2 v (by rw [dims9_len m hd]; omega)
      (by rw [dims9_row_len m hd sq.1 hs1]; omega)
  rw [cellsGoodB_iff] at hg ⊢
  intro c h1 h2 hdig
  by_cases hcsq : c = sq
  · subst hcsq
    rw [hget]
    exact hv
  · have hgc : getCell (setCell m sq.1 sq.2 v) c.1 c.2 = getCell m c.1 c.2 :=
      getCell_setCell_ne m sq.1 sq.2 v c.1 c.2 (ne_pair_of_ne hcsq)
    rw [hgc] at hdig ⊢
    exact hg c h1 h2 hdig

theorem psKeys_fps (m : Grid) (e : List (Nat × Nat)) :
    psKeys (find_possible_solutions m e) = e := by
  unfold psKeys find_possible_solutions
  rw [List.map_map]
  exact List.map_id _

theorem entryShrink_refl (ps : PS) : EntryShrink ps ps := by
  induction ps with
  | nil => exact List.Forall₂.nil
  | cons p ps ih => exact List.Forall₂.cons ⟨rfl, List.Sublist.refl _⟩ ih

theorem entryShrink_trans {a b c : PS} (h1 : EntryShrink a b)
    (h2 : EntryShrink b c) : EntryShrink a c := by
  induction h1 generalizing c with
  | nil => cases h2; exact List.Forall₂.nil
  | cons hpq t ih =>
    cases h2 with
    | cons hqr t2 =>
      exact List.Forall₂.cons ⟨hqr.1.trans hpq.1, hqr.2.trans hpq.2⟩ (ih t2)

theorem entryShrink_psModify (ps : PS) (k : Nat × Nat) (d : Cell) :
    EntryShrink ps (psModify ps k (fun l => l.erase d)) := by
  induction ps with
  | nil => exact List.Forall₂.nil
  | cons p ps ih =>
    rw [psModify_cons]
    refine List.Forall₂.cons ?_ ih
    by_cases h : p.1 = k
    · rw [if_pos (by simp [h] : (p.1 == k) = true)]
      exact ⟨rfl, List.erase_sublist d p.2⟩
    · rw [if_neg (by simp [h] : ¬(p.1 == k) = true)]
      exact ⟨rfl, List.Sublist.refl _⟩

theorem entryShrink_inner_fold (res : BoxResult) (js : List Nat)
    (step : PS → Nat → PS)
    (hstep : ∀ acc j, step acc j = acc ∨
      ∃ k, step acc j = psModify acc k (fun l => l.erase res.1)) :
    ∀ acc : PS, EntryShrink acc (js.foldl step acc) := by
  induction js with
  | nil => intro acc; exact entryShrink_refl acc
  | cons j js ih =>
    intro acc
    rw [List.foldl_cons]
    refine entryShrink_trans ?_ (ih (step acc j))
    rcases hstep acc j with h | ⟨k, h⟩
    · rw [h]; exact entryShrink_refl acc
    · rw [h]; exact entryShrink_psModify acc k res.1

theorem entryShrink_update (ps : PS) (rr cr : List BoxResult) :
    EntryShrink ps (update_possible_solutions ps rr cr) := by
  unfold update_possible_solutions
  have hrow : ∀ (rs : List BoxResult) (acc : PS),
      EntryShrink acc (rs.foldl (fun acc res =>
        (List.range 9).foldl (fun acc' j =>
          if res.2.2.2.contains j || !psHasKey acc' (res.2.1, j) then acc'
          else psModify acc' (res.2.1, j) (fun l => l.erase res.1)) acc) acc) := by
    intro rs
    induction rs with
    | nil => intro acc; exact entryShrink_refl acc
    | cons r rs ih =>
      intro acc
      rw [List.foldl_cons]
      refine entryShrink_trans ?_ (ih _)
      refine entryShrink_inner_fold r (List.range 9) _ ?_ acc
      intro acc' j
      by_cases h : (r.2.2.2.contains j || !psHasKey acc' (r.2.1, j)) = true
      · rw [if_pos h]; exact Or.inl rfl
      · rw [if_neg h]; exact Or.inr ⟨(r.2.1, j), rfl⟩
  have hcol : ∀ (cs : List BoxResult) (acc : PS),
      EntryShrink acc (cs.foldl (fun acc res =>
        (List.range 9).foldl (fun acc' i =>
          if res.2.2.1.contains i || !psHasKey acc' (i, res.2.1) then acc'
          else psModify acc' (i, res.2.1) (fun l => l.erase res.1)) acc) acc) := by
    intro cs
    induction cs with
    | nil => intro acc; exact entryShrink_refl acc
    | cons r cs ih =>
      intro acc
      rw [List.foldl_cons]
      refine entryShrink_trans ?_ (ih _)
      refine entryShrink_inner_fold r (List.range 9) _ ?_ acc
      intro acc' i
      by_cases h : (r.2.2.1.contains i || !psHasKey acc' (i, r.2.1)) = true
      · rw [if_pos h]; exact Or.inl rfl
      · rw [if_neg h]; exact Or.inr ⟨(i, r.2.1), rfl⟩
  exact entryShrink_trans (hrow rr ps) (hcol cr _)

theorem entryShrink_keys {ps ps' : PS} (h : EntryShrink ps ps') :
    psKeys ps' = psKeys ps := by
  induction h with
  | nil => rfl
  | cons hpq _ ih =>
    unfold psKeys at ih ⊢
    rw [List.map_cons, List.map_cons, ih, hpq.1]

theorem entryShrink_totalCand_le {ps ps' : PS} (h : EntryShrink ps ps') :
    totalCand ps' ≤ totalCand ps := by
  induction h with
  | nil => exact Nat.le_refl _
  | cons hpq _ ih =>
    unfold totalCand at ih ⊢
    rw [List.map_cons, List.map_cons, List.sum_cons, List.sum_cons]
    exact Nat.add_le_add hpq.2.length_le ih

theorem entryShrink_ne_lt {ps ps' : PS} (h : EntryShrink ps ps')
    (hne : ps' ≠ ps) : totalCand ps' < totalCand ps := by
  induction h with
  | nil => exact absurd rfl hne
  | cons hpq htail ih =>
    rename_i p q ps₁ ps₂
    unfold totalCand
    rw [List.map_cons, List.map_cons, List.sum_cons, List.sum_cons]
    by_cases hq : q.2 = p.2
    · have hqp : q = p := Prod.ext hpq.1 (by rw [hq])
      have : ps₂ ≠ ps₁ := by
        intro hcontra
        exact hne (by rw [hqp, hcontra])
      have := ih this
      unfold totalCand at this
      have hlen : q.2.length = p.2.length := by rw [hq]
      omega
    · have hlt : q.2.length < p.2.length := by
        rcases Nat.lt_or_ge q.2.length p.2.length with h | h
        · exact h
        · exact absurd (hpq.2.eq_of_length (Nat.le_antisymm hpq.2.length_le h)) hq
      have hle : totalCand ps₂ ≤ totalCand ps₁ := entryShrink_totalCand_le htail
      unfold totalCand at hle
      omega

theorem entryShrink_mem {ps ps' : PS} (h : EntryShrink ps ps') :
    ∀ q ∈ ps', ∃ p ∈ ps, q.1 = p.1 ∧ q.2.Sublist p.2 := by
  induction h with
  | nil => intro q hq; cases hq
  | cons hpq _ ih =>
    intro q hq
    rcases List.mem_cons.mp hq with hq | hq
    · subst hq
      exact ⟨_, List.mem_cons_self _ _, hpq⟩
    · obtain ⟨p, hp, hqp⟩ := ih q hq
      exact ⟨p, List.mem_cons_of_mem _ hp, hqp⟩

theorem psLookup_entry (ps : PS) (sq : Nat × Nat) (hk : psHasKey ps sq = true) :
    (sq, psLookup ps sq) ∈ ps := by
  unfold psHasKey at hk
  have hsome : (ps.find? (fun p => p.1 == sq)).isSome = true :=
    List.find?_isSome.mpr (List.any_eq_true.mp hk)
  obtain ⟨q, hq⟩ := Option.isSome_iff_exists.mp hsome
  have hqm := List.mem_of_find?_eq_some hq
  have hqe : q.1 = sq := by simpa using List.find?_some hq
  unfold psLookup
  rw [hq]
  have hpair : (sq, q.2) = q := by rw [← hqe]
  rw [hpair]
  exact hqm

theorem compare_solutions_mem (ps : PS) (sq : Nat × Nat) (v : Cell)
    (h : compare_solutions ps sq = some v) : v ∈ psLookup ps sq := by
  unfold compare_solutions at h
  dsimp only at h
  cases h1 : (psLookup ps sq).find? (fun s =>
      !(ps.any (fun p => p.1 != sq && p.1.1 == sq.1 && p.2.contains s))) with
  | some s =>
    rw [h1] at h
    cases h
    exact List.mem_of_find?_eq_some h1
  | none =>
    rw [h1] at h
    cases h2 : (psLookup ps sq).find? (fun s =>
        !(ps.any (fun p => p.1 != sq && p.1.2 == sq.2 && p.2.contains s))) with
    | some s =>
      rw [h2] at h
      cases h
      exact List.mem_of_find?_eq_some h2
    | none =>
      rw [h2] at h
      exact List.mem_of_find?_eq_some h

theorem step2find_some (ps : PS) (sq : Nat × Nat) (v : Cell)
    (h : step2find ps = some (sq, v)) :
    psHasKey ps sq = true ∧ compare_solutions ps sq = some v := by
  unfold step2find at h
  obtain ⟨len, _, hinner⟩ := List.exists_of_findSome?_eq_some h
  obtain ⟨p, hp, hcond⟩ := List.exists_of_findSome?_eq_some hinner
  by_cases hl : p.2.length = len
  · rw [if_pos hl] at hcond
    obtain ⟨c, hc, hcv⟩ := Option.map_eq_some'.mp hcond
    have hps : p.1 = sq := congrArg Prod.fst hcv
    have hcs : c = v := congrArg Prod.snd hcv
    subst hps
    subst hcs
    refine ⟨?_, hc⟩
    unfold psHasKey
    exact List.any_eq_true.mpr ⟨p, hp, by simp⟩
  · rw [if_neg hl] at hcond
    cases hcond

theorem loopStep_place (ps : PS) (sq : Nat × Nat) (v : Cell)
    (h : loopStep ps = .place sq v) : ∃ l, (sq, l) ∈ ps ∧ v ∈ l := by
  unfold loopStep at h
  by_cases hmin : minLen ps = 1
  · rw [if_pos hmin] at h
    cases hfind : ps.find? (fun p => p.2.length == 1) with
    | none =>
      rw [hfind] at h
      cases h
    | some p =>
      rw [hfind] at h
      cases h
      refine ⟨p.2, ?_, ?_⟩
      · have := List.mem_of_find?_eq_some hfind
        simpa using this
      · have hl : p.2.length = 1 := by simpa using List.find?_some hfind
        exact getD_mem p.2 0 "" (by omega)
  · rw [if_neg hmin] at h
    cases hstep : step2find ps with
    | none =>
      rw [hstep] at h
      dsimp only at h
      split at h <;> cases h
    | some pr =>
      obtain ⟨sq', v'⟩ := pr
      rw [hstep] at h
      cases h
      obtain ⟨hk, hcmp⟩ := step2find_some ps sq v hstep
      exact ⟨psLookup ps sq, psLookup_entry ps sq hk,
        compare_solutions_mem ps sq v hcmp⟩

theorem loopStep_confine (ps ps' : PS) (h : loopStep ps = .confine ps') :
    ps' = update_possible_solutions ps (check_boxes ps).1 (check_boxes ps).2 ∧
      ps' ≠ ps := by
  unfold loopStep at h
  by_cases hmin : minLen ps = 1
  · rw [if_pos hmin] at h
    cases hfind : ps.find? (fun p => p.2.length == 1) with
    | none => rw [hfind] at h; cases h
    | some p => rw [hfind] at h; cases h
  · rw [if_neg hmin] at h
    cases hstep : step2find ps with
    | some pr =>
      obtain ⟨sq', v'⟩ := pr
      rw [hstep] at h
      cases h
    | none =>
      rw [hstep] at h
      dsimp only at h
      split at h
      · cases h
      · cases h
        next hne => exact ⟨rfl, hne⟩

theorem loopStep_search (ps ps' : PS) (h : loopStep ps = .search ps') :
    ps' = ps := by
  unfold loopStep at h
  by_cases hmin : minLen ps = 1
  · rw [if_pos hmin] at h
    cases hfind : ps.find? (fun p => p.2.length == 1) with
    | none =>
      rw [hfind] at h
      cases h
      rfl
    | some p => rw [hfind] at h; cases h
  · rw [if_neg hmin] at h
    cases hstep : step2find ps with
    | some pr =>
      obtain ⟨sq', v'⟩ := pr
      rw [hstep] at h
      cases h
    | none =>
      rw [hstep] at h
      dsimp only at h
      split at h
      · cases h
        next heq => exact heq
      · cases h

theorem digits_isdigit : ∀ d ∈ digitsS, isdigitS d = true := by decide

theorem fps_sublist (m : Grid) (e : List (Nat × Nat)) :
    ∀ p ∈ find_possible_solutions m e, p.2.Sublist (candsFor m p.1) := by
  intro p hp
  obtain ⟨sq, _, rfl⟩ := List.mem_map.mp hp
  exact List.Sublist.refl _

theorem PropOutOK_lift (m m' : Grid) (r : PropOut) (hE : Extends m m')
    (hcnt : countEmpty m' ≤ countEmpty m)
    (hcons : consistentB m = true → consistentB m' = true)
    (hgood : cellsGoodB m = true → cellsGoodB m' = true)
    (h : PropOutOK m' r) : PropOutOK m r := by
  cases r with
  | solved g =>
    obtain ⟨h1, h2, h3, h4, h5, h6⟩ := h
    exact ⟨h1, h2, extends_trans hE h3, Nat.le_trans h4 hcnt,
      fun hc => h5 (hcons hc), fun hg => h6 (hgood hg)⟩
  | stalled g ps' =>
    obtain ⟨h1, h2, h3, h4, h5, h6, h7⟩ := h
    exact ⟨h1, h2, h3, Nat.le_trans h4 hcnt, extends_trans hE h5,
      fun hc => h6 (hcons hc), fun hg => h7 (hgood hg)⟩

/-- The facts needed about a placement step, bundled. -/
theorem place_step_facts (m : Grid) (ps : PS) (sq : Nat × Nat) (v : Cell)
    (hd : dims9 m = true) (hkeys : psKeys ps = find_empty_squares m)
    (hsub : ∀ p ∈ ps, p.2.Sublist (candsFor m p.1))
    (hstep : loopStep ps = .place sq v) :
    sq ∈ find_empty_squares m ∧ v ∈ candsFor m sq ∧ v ∈ digitsS ∧
      isdigitS v = true ∧ dims9 (setCell m sq.1 sq.2 v) = true ∧
      find_empty_squares (setCell m sq.1 sq.2 v) =
        (find_empty_squares m).erase sq ∧
      countEmpty (setCell m sq.1 sq.2 v) + 1 = countEmpty m ∧
      Extends m (setCell m sq.1 sq.2 v) ∧
      (consistentB m = true → consistentB (setCell m sq.1 sq.2 v) = true) ∧
      (cellsGoodB m = true → cellsGoodB (setCell m sq.1 sq.2 v) = true) := by
  obtain ⟨l, hl, hvl⟩ := loopStep_place ps sq v hstep
  have hsq : sq ∈ find_empty_squares m := by
    rw [← hkeys]
    exact List.mem_map_of_mem Prod.fst hl
  have hvc : v ∈ candsFor m sq := (hsub (sq, l) hl).subset hvl
  have hvd : v ∈ digitsS := ((mem_candsFor m sq v).mp hvc).1
  have hvdig : isdigitS v = true := digits_isdigit v hvd
  have hs1 : sq.1 < 9 := ((mem_find_empty m hd sq).mp hsq).1
  exact ⟨hsq, hvc, hvd, hvdig, dims9_setCell m sq.1 sq.2 v hs1 hd,
    find_empty_setCell m sq v hd hsq hvdig,
    countEmpty_setCell m sq v hd hsq hvdig,
    extends_setCell m sq v hd hsq,
    consistent_setCell m sq v hd hsq hvc,
    cellsGood_setCell m sq v hd hsq hvd⟩

theorem propagate_sound (f : Nat) :
    ∀ (m : Grid) (ps : PS) (r : PropOut),
      dims9 m = true → psKeys ps = find_empty_squares m →
      (∀ p ∈ ps, p.2.Sublist (candsFor m p.1)) →
      propagate f m (find_empty_squares m) ps = some r →
      PropOutOK m r := by
  induction f with
  | zero =>
    intro m ps r _ _ _ hprop
    cases hprop
  | succ f ih =>
    intro m ps r hd hkeys hsub hprop
    simp only [propagate] at hprop
    by_cases he : (find_empty_squares m).isEmpty = true
    · rw [if_pos he] at hprop
      cases hprop
      exact ⟨hd, List.isEmpty_iff.mp he, extends_refl m, Nat.le_refl _,
        id, id⟩
    · rw [if_neg he] at hprop
      cases hstep : loopStep ps with
      | place sq v =>
        rw [hstep] at hprop
        dsimp only at hprop
        obtain ⟨hsq, hvc, hvd, hvdig, hd', hfe', hcnt, hE, hcons, hgood⟩ :=
          place_step_facts m ps sq v hd hkeys hsub hstep
        rw [← hfe'] at hprop
        have hok := ih (setCell m sq.1 sq.2 v)
          (find_possible_solutions (setCell m sq.1 sq.2 v)
            (find_empty_squares (setCell m sq.1 sq.2 v))) r hd'
          (by rw [psKeys_fps])
          (fps_sublist _ _)
          hprop
        exact PropOutOK_lift m _ r hE (by omega) hcons hgood hok
      | confine ps' =>
        rw [hstep] at hprop
        dsimp only at hprop
        obtain ⟨hupd, hne⟩ := loopStep_confine ps ps' hstep
        have hshr : EntryShrink ps ps' := by
          rw [hupd]
          exact entryShrink_update ps _ _
        refine ih m ps' r hd ?_ ?_ hprop
        · rw [entryShrink_keys hshr, hkeys]
        · intro q hq
          obtain ⟨p, hp, hq1, hq2⟩ := entryShrink_mem hshr q hq
          rw [hq1]
          exact hq2.trans (hsub p hp)
      | search ps' =>
        rw [hstep] at hprop
        dsimp only at hprop
        cases hprop
        have hps' : ps' = ps := loopStep_search ps ps' hstep
        subst hps'
        exact ⟨hd, hkeys, hsub, Nat.le_refl _, extends_refl m, id, id⟩

theorem totalCand_fps_le (m : Grid) (e : List (Nat × Nat)) :
    totalCand (find_possible_solutions m e) ≤ 9 * e.length := by
  unfold totalCand find_possible_solutions
  rw [List.map_map]
  induction e with
  | nil => simp
  | cons sq e ih =>
    rw [List.map_cons, List.sum_cons, List.length_cons]
    have h1 := candsFor_length_le m sq
    have : ((e.map ((fun p => p.2.length) ∘ fun sq => (sq, candsFor m sq))).sum) ≤
        9 * e.length := ih
    simp only [Function.comp] at this ⊢
    omega

/-- With fuel exceeding the measure `countEmpty·730 + totalCand`, the
propagation loop never runs out of fuel: every placement spends one empty
cell, and every effective confinement pass strictly shrinks the candidate
total. -/
theorem propagate_fuel (f : Nat) :
    ∀ (m : Grid) (ps : PS),
      dims9 m = true → psKeys ps = find_empty_squares m →
      (∀ p ∈ ps, p.2.Sublist (candsFor m p.1)) →
      countEmpty m * 730 + totalCand ps < f →
      propagate f m (find_empty_squares m) ps ≠ none := by
  induction f with
  | zero =>
    intro m ps _ _ _ hlt
    exact absurd hlt (Nat.not_lt_zero _)
  | succ f ih =>
    intro m ps hd hkeys hsub hlt
    simp only [propagate]
    by_cases he : (find_empty_squares m).isEmpty = true
    · rw [if_pos he]
      simp
    · rw [if_neg he]
      cases hstep : loopStep ps with
      | place sq v =>
        dsimp only
        obtain ⟨hsq, hvc, hvd, hvdig, hd', hfe', hcnt, hE, hcons, hgood⟩ :=
          place_step_facts m ps sq v hd hkeys hsub hstep
        rw [← hfe']
        apply ih _ _ hd' (by rw [psKeys_fps]) (fps_sublist _ _)
        have h1 : 1 ≤ countEmpty m := by
          have hne : find_empty_squares m ≠ [] := fun hnil => by
            rw [hnil] at he
            exact he rfl
          have := List.length_pos.mpr hne
          unfold countEmpty
          omega
        have h2 : totalCand (find_possible_solutions (setCell m sq.1 sq.2 v)
            (find_empty_squares (setCell m sq.1 sq.2 v))) ≤
            9 * countEmpty (setCell m sq.1 sq.2 v) :=
          totalCand_fps_le _ _
        have h3 : countEmpty (setCell m sq.1 sq.2 v) ≤ 81 := countEmpty_le _ hd'
        omega
      | confine ps' =>
        dsimp only
        obtain ⟨hupd, hne⟩ := loopStep_confine ps ps' hstep
        have hshr : EntryShrink ps ps' := by
          rw [hupd]
          exact entryShrink_update ps _ _
        have hdec := entryShrink_ne_lt hshr hne
        refine ih m ps' hd (by rw [entryShrink_keys hshr, hkeys]) ?_ (by omega)
        intro q hq
        obtain ⟨p, hp, hq1, hq2⟩ := entryShrink_mem hshr q hq
        rw [hq1]
        exact hq2.trans (hsub p hp)
      | search ps' =>
        dsimp only
        simp

theorem solvedOK_lift {m c g : Grid} (hE : Extends m c)
    (hcons : consistentB m = true → consistentB c = true)
    (hgood : cellsGoodB m = true → cellsGoodB c = true)
    (h : SolvedOK c g) : SolvedOK m g := by
  obtain ⟨h1, h2, h3, h4, h5⟩ := h
  exact ⟨h1, h2, extends_trans hE h3, fun hx => h4 (hcons hx),
    fun hx => h5 (hgood hx)⟩

theorem tryCopies_sound_aux (pf f : Nat)
    (IH : ∀ (m : Grid) (ps : PS) (g : Grid),
      dims9 m = true → psKeys ps = find_empty_squares m →
      (∀ p ∈ ps, p.2.Sublist (candsFor m p.1)) →
      check_possible_scenarios pf f m ps = some (some g) → SolvedOK m g) :
    ∀ (copies : List Grid) (m : Grid) (g : Grid),
      (∀ c ∈ copies, dims9 c = true ∧ Extends m c ∧
        (consistentB m = true → consistentB c = true) ∧
        (cellsGoodB m = true → cellsGoodB c = true)) →
      tryCopies pf f copies = some (some g) → SolvedOK m g := by
  intro copies
  induction copies with
  | nil =>
    intro m g _ h
    simp [tryCopies] at h
  | cons c rest ih =>
    intro m g hprops h
    obtain ⟨hdc, hEc, hconsc, hgoodc⟩ := hprops c (List.mem_cons_self c rest)
    have hrest := fun x hx => hprops x (List.mem_cons_of_mem c hx)
    rw [tryCopies] at h
    by_cases hpar : check_paradox (find_possible_solutions c
        (find_empty_squares c)) = true
    · rw [if_pos hpar] at h
      exact ih m g hrest h
    · rw [if_neg hpar] at h
      cases hpr : propagate pf c (find_empty_squares c)
          (find_possible_solutions c (find_empty_squares c)) with
      | none =>
        rw [hpr] at h
        cases h
      | some r =>
        rw [hpr] at h
        have hok := propagate_sound pf c
          (find_possible_solutions c (find_empty_squares c)) r hdc
          (psKeys_fps _ _) (fps_sublist _ _) hpr
        cases r with
        | solved g' =>
          cases h
          obtain ⟨h1, h2, h3, _, h5, h6⟩ := hok
          exact solvedOK_lift hEc hconsc hgoodc ⟨h1, h2, h3, h5, h6⟩
        | stalled g' ps'' =>
          dsimp only at h
          obtain ⟨hd', hkeys', hsub', _, hE', hcons', hgood'⟩ := hok
          cases hrec : check_possible_scenarios pf f g' ps'' with
          | none =>
            rw [hrec] at h
            cases h
          | some o =>
            rw [hrec] at h
            cases o with
            | none => exact ih m g hrest h
            | some g₂ =>
              cases h
              have := IH g' ps'' g hd' hkeys' hsub' hrec
              exact solvedOK_lift hEc hconsc hgoodc
                (solvedOK_lift hE' hcons' hgood' this)

theorem check_possible_scenarios_sound (pf : Nat) (f : Nat) :
    ∀ (m : Grid) (ps : PS) (g : Grid),
      dims9 m = true → psKeys ps = find_empty_squares m →
      (∀ p ∈ ps, p.2.Sublist (candsFor m p.1)) →
      check_possible_scenarios pf f m ps = some (some g) → SolvedOK m g := by
  induction f with
  | zero =>
    intro m ps g _ _ _ h
    simp [check_possible_scenarios] at h
  | succ f ih =>
    intro m ps g hd hkeys hsub hcps
    rw [check_possible_scenarios] at hcps
    cases hfind : ps.find? (fun p => p.2.length == minLen ps) with
    | none =>
      rw [hfind] at hcps
      simp at hcps
    | some entry =>
      rw [hfind] at hcps
      dsimp only at hcps
      have hentrym : entry ∈ ps := List.mem_of_find?_eq_some hfind
      have hentrel : entry.2.length = minLen ps := by
        simpa using List.find?_some hfind
      have hsq : entry.1 ∈ find_empty_squares m := by
        rw [← hkeys]
        exact List.mem_map_of_mem Prod.fst hentrym
      have hs1 : entry.1.1 < 9 := ((mem_find_empty m hd entry.1).mp hsq).1
      refine tryCopies_sound_aux pf f ih _ m g ?_ hcps
      intro c hc
      obtain ⟨n, hn, rfl⟩ := List.mem_map.mp hc
      have hnlt : n < entry.2.length := by
        rw [hentrel]
        exact List.mem_range.mp hn
      have hv : entry.2.getD n "" ∈ entry.2 := getD_mem _ n "" hnlt
      have hvc : entry.2.getD n "" ∈ candsFor m entry.1 :=
        (hsub entry hentrym).subset hv
      have hvd : entry.2.getD n "" ∈ digitsS := ((mem_candsFor _ _ _).mp hvc).1
      exact ⟨dims9_setCell m entry.1.1 entry.1.2 _ hs1 hd,
        extends_setCell m entry.1 _ hd hsq,
        consistent_setCell m entry.1 _ hd hsq hvc,
        cellsGood_setCell m entry.1 _ hd hsq hvd⟩

theorem propagate_measure_lt (c : Grid) (hd : dims9 c = true) (pf : Nat)
    (hpf : 59860 ≤ pf) :
    countEmpty c * 730 +
      totalCand (find_possible_solutions c (find_empty_squares c)) < pf := by
  have h1 : countEmpty c ≤ 81 := countEmpty_le c hd
  have h2 : totalCand (find_possible_solutions c (find_empty_squares c)) ≤
      9 * countEmpty c := totalCand_fps_le c (find_empty_squares c)
  omega

theorem tryCopies_fuel_aux (pf n : Nat) (hpf : 59860 ≤ pf)
    (IH : ∀ (m' : Grid) (ps' : PS),
      dims9 m' = true → psKeys ps' = find_empty_squares m' →
      (∀ p ∈ ps', p.2.Sublist (candsFor m' p.1)) →
      countEmpty m' ≤ n → check_possible_scenarios pf (n + 1) m' ps' ≠ none) :
    ∀ copies : List Grid,
      (∀ c ∈ copies, dims9 c = true ∧ countEmpty c ≤ n) →
      tryCopies pf (n + 1) copies ≠ none := by
  intro copies
  induction copies with
  | nil =>
    intro _
    simp [tryCopies]
  | cons c rest ih =>
    intro hprops
    obtain ⟨hdc, hcnt⟩ := hprops c (List.mem_cons_self c rest)
    have hrest := fun x hx => hprops x (List.mem_cons_of_mem c hx)
    rw [tryCopies]
    by_cases hpar : check_paradox (find_possible_solutions c
        (find_empty_squares c)) = true
    · rw [if_pos hpar]
      exact ih hrest
    · rw [if_neg hpar]
      cases hpr : propagate pf c (find_empty_squares c)
          (find_possible_solutions c (find_empty_squares c)) with
      | none =>
        exact absurd hpr (propagate_fuel pf c _ hdc (psKeys_fps _ _)
          (fps_sublist _ _) (propagate_measure_lt c hdc pf hpf))
      | some r =>
        have hok := propagate_sound pf c
          (find_possible_solutions c (find_empty_squares c)) r hdc
          (psKeys_fps _ _) (fps_sublist _ _) hpr
        cases r with
        | solved g' =>
          simp
        | stalled g' ps'' =>
          dsimp only
          obtain ⟨hd', hkeys', hsub', hcnt', _, _, _⟩ := hok
          cases hrec : check_possible_scenarios pf (n + 1) g' ps'' with
          | none =>
            exact absurd hrec (IH g' ps'' hd' hkeys' hsub' (by omega))
          | some o =>
            cases o with
            | none => exact ih hrest
            | some g₂ => simp

theorem check_possible_scenarios_fuel (pf : Nat) (hpf : 59860 ≤ pf) :
    ∀ (n : Nat) (m : Grid) (ps : PS),
      dims9 m = true → psKeys ps = find_empty_squares m →
      (∀ p ∈ ps, p.2.Sublist (candsFor m p.1)) →
      countEmpty m ≤ n →
      check_possible_scenarios pf (n + 1) m ps ≠ none := by
  intro n
  induction n with
  | zero =>
    intro m ps hd hkeys hsub hcnt
    rw [check_possible_scenarios]
    cases hfind : ps.find? (fun p => p.2.length == minLen ps) with
    | none => simp
    | some entry =>
      exfalso
      have hmem : entry ∈ ps := List.mem_of_find?_eq_some hfind
      have hsq : entry.1 ∈ find_empty_squares m := by
        rw [← hkeys]
        exact List.mem_map_of_mem Prod.fst hmem
      have : find_empty_squares m ≠ [] := fun hnil => by
        rw [hnil] at hsq
        cases hsq
      have := List.length_pos.mpr this
      unfold countEmpty at hcnt
      omega
  | succ n ih =>
    intro m ps hd hkeys hsub hcnt
    rw [check_possible_scenarios]
    cases hfind : ps.find? (fun p => p.2.length == minLen ps) with
    | none => simp
    | some entry =>
      dsimp only
      have hmem : entry ∈ ps := List.mem_of_find?_eq_some hfind
      have hentrel : entry.2.length = minLen ps := by
        simpa using List.find?_some hfind
      have hsq : entry.1 ∈ find_empty_squares m := by
        rw [← hkeys]
        exact List.mem_map_of_mem Prod.fst hmem
      have hs1 : entry.1.1 < 9 := ((mem_find_empty m hd entry.1).mp hsq).1
      apply tryCopies_fuel_aux pf n hpf ih
      intro c hc
      obtain ⟨k, hk, rfl⟩ := List.mem_map.mp hc
      have hklt : k < entry.2.length := by
        rw [hentrel]
        exact List.mem_range.mp hk
      have hv : entry.2.getD k "" ∈ entry.2 := getD_mem _ k "" hklt
      have hvc : entry.2.getD k "" ∈ candsFor m entry.1 :=
        (hsub entry hmem).subset hv
      have hvd : isdigitS (entry.2.getD k "") = true :=
        digits_isdigit _ ((mem_candsFor _ _ _).mp hvc).1
      have hcnt' := countEmpty_setCell m entry.1 _ hd hsq hvd
      exact ⟨dims9_setCell m entry.1.1 entry.1.2 _ hs1 hd, by omega⟩

theorem digitsS_count : ∀ d ∈ digitsS, digitsS.count d = 1 := by decide

theorem full_cell_digit (g : Grid) (hd : dims9 g = true)
    (hfull : find_empty_squares g = []) (c : Nat × Nat)
    (h1 : c.1 < 9) (h2 : c.2 < 9) : isdigitS (getCell g c.1 c.2) = true := by
  by_cases hdig : isdigitS (getCell g c.1 c.2) = true
  · exact hdig
  · exfalso
    have := (mem_find_empty g hd c).mpr ⟨h1, h2, Bool.eq_false_iff.mpr hdig⟩
    rw [hfull] at this
    cases this

/-- Nine pairwise same-scope distinct in-range cells of a full, consistent,
well-formed grid carry each digit exactly once. -/
theorem scope_counts (g : Grid) (coords : List (Nat × Nat))
    (h9 : coords.length = 9) (hnd : coords.Nodup)
    (hin : ∀ c ∈ coords, c.1 < 9 ∧ c.2 < 9)
    (hsc : ∀ c1 ∈ coords, ∀ c2 ∈ coords, c1 ≠ c2 → sameScopeB c1 c2 = true)
    (hd : dims9 g = true) (hfull : find_empty_squares g = [])
    (hgood : cellsGoodB g = true) (hcons : consistentB g = true) :
    ∀ d ∈ digitsS, (coords.map (fun c => getCell g c.1 c.2)).count d = 1 := by
  have hdig : ∀ c ∈ coords, isdigitS (getCell g c.1 c.2) = true := fun c hc =>
    full_cell_digit g hd hfull c (hin c hc).1 (hin c hc).2
  have hsubset : (coords.map (fun c => getCell g c.1 c.2)) ⊆ digitsS := by
    intro v hv
    obtain ⟨c, hc, rfl⟩ := List.mem_map.mp hv
    exact (cellsGoodB_iff g).mp hgood c (hin c hc).1 (hin c hc).2 (hdig c hc)
  have hpair : coords.Pairwise
      (fun c1 c2 => getCell g c1.1 c1.2 ≠ getCell g c2.1 c2.2) := by
    refine List.Pairwise.imp_of_mem ?_ hnd
    intro c1 c2 hm1 hm2 hne
    exact (consistentB_iff g).mp hcons c1 c2 (hin c1 hm1).1 (hin c1 hm1).2
      (hin c2 hm2).1 (hin c2 hm2).2 hne (hsc c1 hm1 c2 hm2 hne)
      (hdig c1 hm1) (hdig c2 hm2)
  have hndv : (coords.map (fun c => getCell g c.1 c.2)).Nodup :=
    List.Pairwise.map _ (fun a b h => h) hpair
  have hsp : List.Subperm (coords.map (fun c => getCell g c.1 c.2)) digitsS :=
    List.subperm_of_subset hndv hsubset
  have hperm : List.Perm (coords.map (fun c => getCell g c.1 c.2)) digitsS :=
    hsp.perm_of_length_le (by rw [List.length_map, h9]; rfl)
  intro d hdm
  rw [hperm.count_eq d, digitsS_count d hdm]

theorem list_eq_range_map {α : Type} (l : List α) (d : α) :
    l = (List.range l.length).map (fun n => l.getD n d) := by
  have h := range_map_getD l d id
  rw [List.map_id] at h
  exact h.symm

theorem valid_of_solved (g : Grid) (hd : dims9 g = true)
    (hfull : find_empty_squares g = []) (hgood : cellsGoodB g = true)
    (hcons : consistentB g = true) : validB g = true := by
  unfold validB
  refine Bool.and_eq_true_iff.mpr ⟨Bool.and_eq_true_iff.mpr ⟨?_, ?_⟩, ?_⟩
  · rw [List.all_eq_true]
    intro i hi
    rw [List.all_eq_true]
    intro d hdm
    have hi9 : i < 9 := List.mem_range.mp hi
    have hrow : rowCells g i =
        ((List.range 9).map (fun j => (i, j))).map
          (fun c => getCell g c.1 c.2) := by
      rw [List.map_map]
      have h1 := list_eq_range_map (g.getD i []) ""
      rw [dims9_row_len g hd i hi9] at h1
      unfold rowCells
      exact h1
    have hcnt := scope_counts g ((List.range 9).map (fun j => (i, j)))
      (by simp) (List.Nodup.map (fun a b h => (Prod.mk.injEq _ _ _ _).mp h |>.2)
        (List.nodup_range 9))
      (by
        intro c hc
        obtain ⟨j, hj, rfl⟩ := List.mem_map.mp hc
        exact ⟨hi9, List.mem_range.mp hj⟩)
      (by
        intro c1 hc1 c2 hc2 _
        obtain ⟨j1, _, rfl⟩ := List.mem_map.mp hc1
        obtain ⟨j2, _, rfl⟩ := List.mem_map.mp hc2
        unfold sameScopeB
        simp)
      hd hfull hgood hcons d hdm
    rw [hrow]
    simpa using hcnt
  · rw [List.all_eq_true]
    intro j hj
    rw [List.all_eq_true]
    intro d hdm
    have hj9 : j < 9 := List.mem_range.mp hj
    have hcol : colCells g j =
        ((List.range 9).map (fun i => (i, j))).map
          (fun c => getCell g c.1 c.2) := by
      rw [List.map_map]
      have h1 := range_map_getD g [] (fun r => r.getD j "")
      rw [dims9_len g hd] at h1
      unfold colCells
      exact h1.symm
    have hcnt := scope_counts g ((List.range 9).map (fun i => (i, j)))
      (by simp) (List.Nodup.map (fun a b h => (Prod.mk.injEq _ _ _ _).mp h |>.1)
        (List.nodup_range 9))
      (by
        intro c hc
        obtain ⟨i, hi, rfl⟩ := List.mem_map.mp hc
        exact ⟨List.mem_range.mp hi, hj9⟩)
      (by
        intro c1 hc1 c2 hc2 _
        obtain ⟨i1, _, rfl⟩ := List.mem_map.mp hc1
        obtain ⟨i2, _, rfl⟩ := List.mem_map.mp hc2
        unfold sameScopeB
        simp)
      hd hfull hgood hcons d hdm
    rw [hcol]
    simpa using hcnt
  · rw [List.all_eq_true]
    intro b hb
    rw [List.all_eq_true]
    intro d hdm
    have hbox : b.1.flatMap (fun x => b.2.map (fun y => getCell g x y)) =
        (b.1.flatMap (fun x => b.2.map (fun y => (x, y)))).map
          (fun c => getCell g c.1 c.2) := by
      rw [List.map_flatMap]
      refine flatMap_congr fun x _ => ?_
      rw [List.map_map]
      rfl
    have hprops : (b.1.flatMap (fun x => b.2.map (fun y => (x, y)))).length = 9 ∧
        (b.1.flatMap (fun x => b.2.map (fun y => (x, y)))).Nodup ∧
        (∀ c ∈ b.1.flatMap (fun x => b.2.map (fun y => (x, y))),
          c.1 < 9 ∧ c.2 < 9) ∧
        (∀ c1 ∈ b.1.flatMap (fun x => b.2.map (fun y => (x, y))),
          ∀ c2 ∈ b.1.flatMap (fun x => b.2.map (fun y => (x, y))),
          c1 ≠ c2 → sameScopeB c1 c2 = true) := by
      unfold boxesC at hb
      simp only [List.mem_cons, List.not_mem_nil, or_false] at hb
      rcases hb with rfl | rfl | rfl | rfl | rfl | rfl | rfl | rfl | rfl <;>
        exact ⟨by decide, by decide, by decide, by decide⟩
    obtain ⟨hb9, hbnd, hbin, hbsc⟩ := hprops
    have hcnt := scope_counts g _ hb9 hbnd hbin hbsc hd hfull hgood hcons d hdm
    rw [hbox]
    simpa using hcnt

theorem solveTop_sound (pf cf : Nat) (m g : Grid) (hd : dims9 m = true)
    (h : solveTop pf cf m = some (some g)) : SolvedOK m g := by
  unfold solveTop at h
  dsimp only at h
  cases hpr : propagate pf m (find_empty_squares m)
      (find_possible_solutions m (find_empty_squares m)) with
  | none =>
    rw [hpr] at h
    cases h
  | some r =>
    rw [hpr] at h
    have hok := propagate_sound pf m
      (find_possible_solutions m (find_empty_squares m)) r hd
      (psKeys_fps _ _) (fps_sublist _ _) hpr
    cases r with
    | solved g' =>
      cases h
      obtain ⟨h1, h2, h3, _, h5, h6⟩ := hok
      exact ⟨h1, h2, h3, h5, h6⟩
    | stalled g' ps' =>
      obtain ⟨hd', hkeys', hsub', _, hE', hcons', hgood'⟩ := hok
      exact solvedOK_lift hE' hcons' hgood'
        (check_possible_scenarios_sound pf cf g' ps' g hd' hkeys' hsub' h)

/-- C7: for every well-formed input grid the solver solves, every cell that
held a digit in the input holds the same digit in the returned grid — the
solver writes only to cells that were originally empty. -/
theorem C7_givens_preserved (pf cf : Nat) (m g : Grid) (hd : dims9 m = true)
    (h : solveTop pf cf m = some (some g)) :
    ∀ i j : Nat, isdigitS (getCell m i j) = true →
      getCell g i j = getCell m i j := by
  intro i j hdig
  exact (solveTop_sound pf cf m g hd h).2.2.1 (i, j) hdig

/-- Witness for C7: solving `gC7` yields `cyclicG`, and a given cell keeps
its value. -/
theorem C7_witness :
    dims9 gC7 = true ∧ getCell cyclicG 0 0 = getCell gC7 0 0 :=
  ⟨by decide,
    C7_givens_preserved 2 0 gC7 cyclicG (by decide) (by decide) 0 0 (by decide)⟩

/-- C2: the solve procedure terminates.  For every 9×9 grid: the number of
empty cells is at most 81; the solver run with propagation fuel 59860 and
search-recursion fuel `countEmpty m + 1` (one frame per empty cell plus the
root) never exhausts its fuel, because every successful placement strictly
decreases the count of empty cells (third conjunct) and each search node
enumerates only `minLen ps ≤ 9` branches (fourth conjunct). -/
theorem C2_termination (m : Grid) (hd : dims9 m = true) :
    countEmpty m ≤ 81 ∧
    solveTop 59860 (countEmpty m + 1) m ≠ none ∧
    (∀ (sq : Nat × Nat) (v : Cell), sq ∈ find_empty_squares m →
      isdigitS v = true → countEmpty (setCell m sq.1 sq.2 v) + 1 = countEmpty m) ∧
    (∀ ps : PS, (∀ p ∈ ps, p.2.length ≤ 9) → minLen ps ≤ 9) := by
  refine ⟨countEmpty_le m hd, ?_, ?_, ?_⟩
  · unfold solveTop
    dsimp only
    cases hpr : propagate 59860 m (find_empty_squares m)
        (find_possible_solutions m (find_empty_squares m)) with
    | none =>
      exact absurd hpr (propagate_fuel 59860 m _ hd (psKeys_fps _ _)
        (fps_sublist _ _) (propagate_measure_lt m hd 59860 (Nat.le_refl _)))
    | some r =>
      have hok := propagate_sound 59860 m
        (find_possible_solutions m (find_empty_squares m)) r hd
        (psKeys_fps _ _) (fps_sublist _ _) hpr
      cases r with
      | solved g' => simp
      | stalled g' ps' =>
        dsimp only
        obtain ⟨hd', hkeys', hsub', hcnt', _, _, _⟩ := hok
        exact check_possible_scenarios_fuel 59860 (Nat.le_refl _)
          (countEmpty m) g' ps' hd' hkeys' hsub' hcnt'
  · intro sq v hsq hv
    exact countEmpty_setCell m sq v hd hsq hv
  · intro ps hlen
    cases ps with
    | nil => exact Nat.le_of_lt_succ (by decide)
    | cons p rest =>
      exact Nat.le_trans (minLen_le (p :: rest) p (List.mem_cons_self p rest))
        (hlen p (List.mem_cons_self p rest))

/-- Witness for C2 at a concrete grid. -/
theorem C2_witness :
    dims9 gC7 = true ∧ countEmpty gC7 ≤ 81 ∧
    solveTop 59860 (countEmpty gC7 + 1) gC7 ≠ none :=
  ⟨by decide, (C2_termination gC7 (by decide)).1,
    (C2_termination gC7 (by decide)).2.1⟩

/-- C1 (amended): for every 9×9 input grid whose cells are digit strings
1–9 or empty markers and whose placed digits are pairwise distinct within
every row, column, and box, any grid the solver returns has every row,
column, and box containing each digit 1–9 exactly once. -/
theorem C1_validity (pf cf : Nat) (m g : Grid) (hd : dims9 m = true)
    (hgood : cellsGoodB m = true) (hcons : consistentB m = true)
    (h : solveTop pf cf m = some (some g)) : validB g = true := by
  obtain ⟨hdg, hfull, _, hconsg, hgoodg⟩ := solveTop_sound pf cf m g hd h
  exact valid_of_solved g hdg hfull (hgoodg hgood) (hconsg hcons)

/-- C1 counterexample: on the all-ones input the solver returns the grid
unchanged as a success (`main` prints it), yet its rows, columns, and boxes
do not contain each digit exactly once. -/
theorem C1_counterexample :
    solveTop 1 1 allOnesG = some (some allOnesG) ∧ validB allOnesG = false :=
  ⟨by decide, by decide⟩

/-- Witness for C1: solving `gC7` produces the valid grid `cyclicG`. -/
theorem C1_witness :
    dims9 gC7 = true ∧ cellsGoodB gC7 = true ∧ consistentB gC7 = true ∧
      validB cyclicG = true :=
  ⟨by decide, by decide, by decide,
    C1_validity 2 0 gC7 cyclicG (by decide) (by decide) (by decide) (by decide)⟩

end Sudoku
